import Mathlib

/-! Audacity transport manager (`src/ProjectAudioManager.cpp`).

A shallow embedding of `ProjectAudioManager` and the collaborators it drives.
Times are C++ `double`s in the source; they are modelled as rationals, which
contain every finite `double` and on which comparison, `min`, `max` and swap
agree exactly with the floating-point operations. In `DoPlayStopSelect`, where
the source compares the absolute values of two `double` differences, the
differences are rounded to binary64 with `roundToDouble`.
-/

set_option autoImplicit false

namespace Audacity

/-! ## Data model -/

/-- Seconds. -/
abbrev Time := ℚ

/-- The closed set of track kinds. -/
inductive TrackKind where
  | Wave
  | Note
  | Label
  | Time
deriving DecidableEq, Repr

/-- Edits applied to the audio of a track copy; the sample data itself is not
modelled, only the sequence of edit calls made on the copy. `Clear t0 t1` is
`Clear(t0, t1)`. `PasteSilence t minuend subtrahend` is `Paste(t, newTrack)`
of a track made of silence by `InsertSilence(0.0, minuend - subtrahend)`: the
operands of the `double` subtraction are recorded, not its rounded value. -/
inductive TrackOp where
  | Clear (t0 t1 : Time)
  | PasteSilence (t minuend subtrahend : Time)
deriving DecidableEq

/-- One track of the project (`Track` / `WaveTrack`). `id` stands for the
object identity that the source handles through `shared_ptr`. -/
structure Track where
  id : Nat
  kind : TrackKind := TrackKind.Wave
  selected : Bool := false
  startTime : Time := 0
  endTime : Time := 0
  name : String := ""
  ops : List TrackOp := []
deriving DecidableEq

/-- A leader track together with the further channels linked to it.
`TrackList::Channels(leader)` is the leader followed by `others`. -/
structure ChannelGroup where
  leader : Track
  others : List Track := []
deriving DecidableEq

/-- The range `TrackList::Channels(candidate)`: the leader first, then the
channels grouped with it. -/
def Channels (g : ChannelGroup) : List Track :=
  g.leader :: g.others

/-- The range `trackList.Leaders<WaveTrack>()`. -/
def LeadersWave (groups : List ChannelGroup) : List ChannelGroup :=
  groups.filter (fun g => decide (g.leader.kind = TrackKind.Wave))

/-- The range `range + &Track::IsSelected`: the predicate is read on the
iterated (leader) track. -/
def SelectedOnly (groups : List ChannelGroup) : List ChannelGroup :=
  groups.filter (fun g => g.leader.selected)

/-! ## `ChooseExistingRecordingTracks` -/

/-- The sequence the `for` loop of `ChooseExistingRecordingTracks` iterates:
`selectedOnly ? range + &Track::IsSelected : range`. -/
def scannedSequence (groups : List ChannelGroup) (selectedOnly : Bool) :
    List ChannelGroup :=
  if selectedOnly then SelectedOnly (LeadersWave groups) else LeadersWave groups

/-- The discard loop
`while (strictRules && nChannels + candidates.size() > recordingChannels)`,
each round reading `channelCounts[0]` and erasing from the front of both
vectors. `none` stands for an out-of-bounds read or erase. Every round
removes the first entry of `channelCounts`, so the recursion is on that
vector. -/
def discardOldest (strictRules : Bool) (recordingChannels nChannels : Nat) :
    List Nat → List Track → Option (List Nat × List Track)
  | [], candidates =>
    if strictRules && decide (nChannels + candidates.length > recordingChannels) then
      none
    else
      some ([], candidates)
  | nOldChannels :: rest, candidates =>
    if strictRules && decide (nChannels + candidates.length > recordingChannels) then
      if nOldChannels ≤ candidates.length then
        discardOldest strictRules recordingChannels nChannels rest
          (candidates.drop nOldChannels)
      else
        none
    else
      some (nOldChannels :: rest, candidates)

/-- How the loop over the channels of one track ends. -/
inductive PushResult where
  | returned (candidates : List Track)
  | finished (candidates : List Track)
deriving DecidableEq

/-- The inner loop `for (auto channel : channels)`: push the channel, and
return the candidates as soon as their number equals `recordingChannels`. -/
def pushChannels (recordingChannels : Nat) : List Track → List Track → PushResult
  | [], candidates => PushResult.finished candidates
  | channel :: rest, candidates =>
    if (candidates ++ [channel]).length = recordingChannels then
      PushResult.returned (candidates ++ [channel])
    else
      pushChannels recordingChannels rest (candidates ++ [channel])

/-- The loop over the candidate tracks, with the statements after it.
The state is `channelCounts` and `candidates`. -/
def scanTracks (strictRules : Bool) (recordingChannels : Nat) :
    List ChannelGroup → List Nat → List Track → Option (List Track)
  | [], _, candidates =>
    if !strictRules && !candidates.isEmpty then some candidates else some []
  | candidate :: rest, channelCounts, candidates =>
    let channels := Channels candidate
    let nChannels := channels.length
    if strictRules && decide (nChannels > recordingChannels) then
      scanTracks strictRules recordingChannels rest [] []
    else
      match discardOldest strictRules recordingChannels nChannels channelCounts candidates with
      | none => none
      | some (channelCounts1, candidates1) =>
        match pushChannels recordingChannels channels candidates1 with
        | PushResult.returned result => some result
        | PushResult.finished candidates2 =>
          scanTracks strictRules recordingChannels rest (channelCounts1 ++ [nChannels])
            candidates2

/-- `ProjectAudioManager::ChooseExistingRecordingTracks`. `recordChannels` is
the preference `/AudioIO/RecordChannels`, `groups` the project's track list.
`none` stands for an out-of-bounds access in the discard loop. -/
def ChooseExistingRecordingTracks (recordChannels : Int) (groups : List ChannelGroup)
    (selectedOnly : Bool) : Option (List Track) :=
  let recordingChannels : Nat := (max 0 recordChannels).toNat
  let strictRules : Bool := decide (recordingChannels ≤ 2)
  if !strictRules && !selectedOnly then
    some []
  else
    scanTracks strictRules recordingChannels (scannedSequence groups selectedOnly) [] []

/-- Number of channels of a list of channel groups. -/
def channelSum (run : List ChannelGroup) : Nat :=
  (run.map (fun g => (Channels g).length)).sum

/-- All the channels of a list of channel groups, in list order. -/
def allChannels (run : List ChannelGroup) : List Track :=
  run.flatMap Channels

/-- Sample tracks. -/
def monoSel : ChannelGroup := { leader := { id := 1, selected := true } }

/-- An unselected stereo track. -/
def stereoUnsel : ChannelGroup := { leader := { id := 2 }, others := [{ id := 3 }] }

/-- A selected stereo track. -/
def stereoSel : ChannelGroup :=
  { leader := { id := 4, selected := true }, others := [{ id := 5, selected := true }] }

/-- A second selected mono track. -/
def monoSel2 : ChannelGroup := { leader := { id := 6, selected := true } }

/-! ## Transport state -/

/-- Modelled from the spec: `PlayMode` is declared in `ProjectAudioManager.h`,
which is not among the sources; the spec gives the variant
{normalPlay, loopedPlay, cutPreviewPlay}. -/
inductive PlayMode where
  | normalPlay
  | loopedPlay
  | cutPreviewPlay
deriving DecidableEq, Repr

/-- The pair `(t0, t1)` of a `SelectedRegion`. -/
structure SelectedRegion where
  t0 : Time
  t1 : Time
deriving DecidableEq

/-- The fields of `AudioIOStartStreamOptions` that the transport manager reads
or writes. `pScrubbingOptions` records whether the pointer is set. -/
structure AudioIOStartStreamOptions where
  playLooped : Bool := false
  pScrubbingOptions : Bool := false
  cutPreviewGapStart : Time := 0
  cutPreviewGapLen : Time := 0
deriving DecidableEq

/-- The bundle `TransportTracks`. -/
structure TransportTracks where
  playbackTracks : List Track := []
  captureTracks : List Track := []
  midiTracks : List Track := []
  prerollTracks : List Track := []
deriving DecidableEq

/-- Calls that change the state of the audio engine. -/
inductive EngineCall where
  | StartStream (tracks : TransportTracks) (t0 t1 : Time) (options : AudioIOStartStreamOptions)
  | StopStream
  | SetPaused (state : Bool)
deriving DecidableEq

/-- What the transport manager does, in order: writes of its session flags and
of the stored token, calls into the engine and into the user interface. -/
inductive Event where
  | SetLooping (b : Bool)
  | SetCutting (b : Bool)
  | SetPaused (b : Bool)
  | SetStopping (b : Bool)
  | SetAppending (b : Bool)
  | SetLastPlayMode (mode : PlayMode)
  | SetAudioIOToken (token : Int)
  | Engine (call : EngineCall)
  | StopScrubbing
  | ProcessIdle
  | ClearMeters
  | EnableDisableButtons
  | SetFocus (track : Nat)
  | SetMinimized (track : Nat)
  | ErrorDialog (deferred : Bool)
  | ScrubberPause (paused : Bool)
  | ModifyState
deriving DecidableEq

/-- The shared audio engine as the transport manager observes it. The engine
is an external collaborator: `startResult` is the token its next `StartStream`
answers with. -/
structure AudioIO where
  streamActive : Bool := false
  busy : Bool := false
  monitoring : Bool := false
  paused : Bool := false
  scrubbing : Bool := false
  owningProject : Option Nat := none
  numCaptureChannels : Nat := 0
  activeToken : Int := 0
  streamTime : Time := 0
  startResult : Int := 1
deriving DecidableEq

/-- The preferences read through `gPrefs`, each with the value the read
yields. `recordingTrackName` is `none` when the key is absent. -/
structure Prefs where
  recordChannels : Int := 2
  cutPreviewBeforeLen : Time := 2
  cutPreviewAfterLen : Time := 1
  preferNewTrackRecord : Bool := false
  duplex : Bool := true
  recordingNameCustom : Bool := false
  useTrackNumber : Bool := false
  useDateStamp : Bool := false
  useTimeStamp : Bool := false
  defaultTrackName : String := "Audio Track"
  recordingTrackName : Option String := none
deriving DecidableEq

/-- One project with its transport manager and the engine it shares.
`pendingUpdates` and `pendingNew` are the staging area of the track list. -/
structure Project where
  id : Nat := 0
  looping : Bool := false
  cutting : Bool := false
  paused : Bool := false
  stopping : Bool := false
  appending : Bool := false
  lastPlayMode : PlayMode := PlayMode.normalPlay
  cutPreviewTracks : Option (List Track) := none
  audioIOToken : Int := 0
  tracks : List ChannelGroup := []
  pendingUpdates : List Track := []
  pendingNew : List ChannelGroup := []
  nextTrackId : Nat := 1000
  selectedRegion : SelectedRegion := { t0 := 0, t1 := 0 }
  playRegion : SelectedRegion := { t0 := 0, t1 := 0 }
  rate : Nat := 44100
  isoDate : String := "2019-06-01"
  isoTime : String := "12:00:00"
  menuAllowed : Bool := true
  tracksFitVerticallyZoomed : Bool := false
  scrubberHasMark : Bool := false
  scrubberWasSpeedPlaying : Bool := false
  scrubberIsSpeedPlaying : Bool := false
  prefs : Prefs := {}
  engine : AudioIO := {}
  trace : List Event := []
deriving DecidableEq

/-- The range `trackList.Any()`: every track, channel by channel. -/
def allTracks (groups : List ChannelGroup) : List Track :=
  groups.flatMap Channels

/-- Whether a track kind is a `PlayableTrack` (wave tracks, and note tracks,
which play through MIDI). -/
def isPlayable (k : TrackKind) : Bool :=
  decide (k = TrackKind.Wave) || decide (k = TrackKind.Note)

/-- The range `Any<WaveTrack>()`. -/
def AnyWave (ts : List Track) : List Track :=
  ts.filter (fun t => decide (t.kind = TrackKind.Wave))

/-- The range `Any<PlayableTrack>()`. -/
def AnyPlayable (ts : List Track) : List Track :=
  ts.filter (fun t => isPlayable t.kind)

/-- The range `Selected<const PlayableTrack>()`. -/
def SelectedPlayable (ts : List Track) : List Track :=
  ts.filter (fun t => isPlayable t.kind && t.selected)

/-- Modelled from the spec: `TrackList::GetStartTime` is not among the sources;
it is the aggregate start time of the track list, the least start time of its
tracks and zero for an empty list. -/
def GetStartTime (groups : List ChannelGroup) : Time :=
  match allTracks groups with
  | [] => 0
  | t :: ts => ts.foldl (fun acc u => min acc u.startTime) t.startTime

/-- Modelled from the spec: `TrackList::GetEndTime` is not among the sources;
it is the aggregate end time of the track list, the greatest end time of its
tracks and zero for an empty list. -/
def GetEndTime (groups : List ChannelGroup) : Time :=
  match allTracks groups with
  | [] => 0
  | t :: ts => ts.foldl (fun acc u => max acc u.endTime) t.endTime

/-- Append an event to the trace. -/
def Project.log (p : Project) (e : Event) : Project :=
  { p with trace := p.trace ++ [e] }

/-- `ProjectAudioManager::CanStopAudioStream`. -/
def CanStopAudioStream (p : Project) : Bool :=
  !p.engine.streamActive || p.engine.monitoring ||
    decide (p.engine.owningProject = some p.id)

/-- `SetLooping`. -/
def SetLooping (p : Project) (b : Bool) : Project :=
  { p with looping := b, trace := p.trace ++ [Event.SetLooping b] }

/-- `SetCutting`. -/
def SetCutting (p : Project) (b : Bool) : Project :=
  { p with cutting := b, trace := p.trace ++ [Event.SetCutting b] }

/-- `SetPaused` of the transport manager. -/
def SetPaused (p : Project) (b : Bool) : Project :=
  { p with paused := b, trace := p.trace ++ [Event.SetPaused b] }

/-- `SetStopping`. -/
def SetStopping (p : Project) (b : Bool) : Project :=
  { p with stopping := b, trace := p.trace ++ [Event.SetStopping b] }

/-- `SetAppending`. -/
def SetAppending (p : Project) (b : Bool) : Project :=
  { p with appending := b, trace := p.trace ++ [Event.SetAppending b] }

/-- `ProjectAudioIO::SetAudioIOToken`. -/
def SetAudioIOToken (p : Project) (token : Int) : Project :=
  { p with audioIOToken := token, trace := p.trace ++ [Event.SetAudioIOToken token] }

/-- `gAudioIO->StartStream(...)`: the call is recorded and the engine answers
with its token. -/
def StartStream (p : Project) (tracks : TransportTracks) (t0 t1 : Time)
    (options : AudioIOStartStreamOptions) : Int × Project :=
  (p.engine.startResult,
    p.log (Event.Engine (EngineCall.StartStream tracks t0 t1 options)))

/-- `gAudioIO->StopStream()`. -/
def StopStream (p : Project) : Project :=
  p.log (Event.Engine EngineCall.StopStream)

/-- `gAudioIO->SetPaused(state)`. -/
def EngineSetPaused (p : Project) (state : Bool) : Project :=
  { p with engine := { p.engine with paused := state },
           trace := p.trace ++ [Event.Engine (EngineCall.SetPaused state)] }

/-- `ProjectAudioManager::ClearCutPreviewTracks`. -/
def ClearCutPreviewTracks (p : Project) : Project :=
  { p with cutPreviewTracks := none }

/-- The body of the loop of `SetupCutPreviewTracks`: `track1->Duplicate()`
followed by `newTrack->Clear(cutStart, cutEnd)`. -/
def duplicateAndClear (cutStart cutEnd : Time) (track1 : Track) : Track :=
  { track1 with ops := track1.ops ++ [TrackOp.Clear cutStart cutEnd] }

/-- `ProjectAudioManager::SetupCutPreviewTracks`: each selected playable track
is duplicated and the cut interval cleared from the duplicate. -/
def SetupCutPreviewTracks (p : Project) (_playStart cutStart cutEnd _playEnd : Time) :
    Project :=
  let p1 := ClearCutPreviewTracks p
  let trackRange := SelectedPlayable (allTracks p1.tracks)
  if !trackRange.isEmpty then
    { p1 with cutPreviewTracks := some (trackRange.map (duplicateAndClear cutStart cutEnd)) }
  else
    p1

/-- `ProjectAudioManager::GetAllPlaybackTracks` on the tracks of a list. -/
def GetAllPlaybackTracks (ts : List Track) (selectedOnly useMidi : Bool) : TransportTracks :=
  { playbackTracks := (AnyWave ts).filter (fun t => !selectedOnly || t.selected),
    midiTracks :=
      if useMidi then
        (ts.filter (fun t => decide (t.kind = TrackKind.Note))).filter
          (fun t => !selectedOnly || t.selected)
      else [] }

/-- The time-region arithmetic of `PlayPlayRegion` between the audio check and
the stream start: `t0`, `t1` are the bounds after the first swap, `tracks` the
project's track list and `selection` the selected region of its view. -/
def resolveRegion (tracks : List ChannelGroup) (selection : SelectedRegion) (t0 t1 : Time)
    (looped backwards : Bool) (latestEnd : Time) : Time × Time :=
  if t1 = t0 then
    let r : Time × Time :=
      if looped then
        if t0 > selection.t0 ∧ t0 < selection.t1 then
          (selection.t0, selection.t1)
        else
          (GetStartTime tracks, GetEndTime tracks)
      else if t0 < 0 then
        (GetStartTime tracks, t1)
      else if t0 > GetEndTime tracks then
        (GetEndTime tracks, t1)
      else
        (t0, t1)
    (r.1, GetEndTime tracks)
  else
    let a : Time × Time := if backwards then (t1, t0) else (t0, t1)
    let b : Time × Time := (max 0 (min a.1 latestEnd), max 0 (min a.2 latestEnd))
    if backwards then (b.2, b.1) else b

/-- The stream start of `PlayPlayRegion` and what follows it, for bounds
`t0 ≠ t1`. The first component of `started` is the token of `StartStream`,
absent when the cut-preview tracks could not be made. -/
def startPlayback (p : Project) (options : AudioIOStartStreamOptions) (cutpreview : Bool)
    (backwards useMidi : Bool) (t0 t1 : Time) : Int × Project :=
  let started : Option Int × Project :=
    if cutpreview then
      let tless := min t0 t1
      let tgreater := max t0 t1
      let beforeLen := p.prefs.cutPreviewBeforeLen
      let afterLen := p.prefs.cutPreviewAfterLen
      let tcp0 := tless - beforeLen
      let diff := tgreater - tless
      let tcp1 := (tgreater + afterLen) - diff
      let p1 := SetupCutPreviewTracks p tcp0 tless tgreater tcp1
      let tcp : Time × Time := if backwards then (tcp1, tcp0) else (tcp0, tcp1)
      match p1.cutPreviewTracks with
      | some cutPreviewTracks =>
        let myOptions : AudioIOStartStreamOptions :=
          { options with cutPreviewGapStart := t0, cutPreviewGapLen := t1 - t0 }
        let r := StartStream p1 (GetAllPlaybackTracks cutPreviewTracks false useMidi)
          tcp.1 tcp.2 myOptions
        (some r.1, r.2)
      | none => (none, p1)
    else
      let r := StartStream p (GetAllPlaybackTracks (allTracks p.tracks) false useMidi) t0 t1
        options
      (some r.1, r.2)
  match started.1 with
  | none => (-1, started.2)
  | some token =>
    if token ≠ 0 then
      (token, SetAudioIOToken started.2 token)
    else
      (-1, started.2.log (Event.ErrorDialog true))

/-- The statements `SetLooping( mode == PlayMode::loopedPlay )` and
`SetCutting( mode == PlayMode::cutPreviewPlay )` of `PlayPlayRegion`. -/
def markMode (p : Project) (mode : PlayMode) : Project :=
  SetCutting (SetLooping p (decide (mode = PlayMode.loopedPlay)))
    (decide (mode = PlayMode.cutPreviewPlay))

/-- The statement `mLastPlayMode = mode`. -/
def SetLastPlayMode (p : Project) (mode : PlayMode) : Project :=
  { p with lastPlayMode := mode, trace := p.trace ++ [Event.SetLastPlayMode mode] }

/-- The value of `hasaudio` in `PlayPlayRegion`. -/
def hasAudio (tracks : List ChannelGroup) (useMidi : Bool) : Bool :=
  if useMidi then !(AnyPlayable (allTracks tracks)).isEmpty
  else !(AnyWave (allTracks tracks)).isEmpty

/-- `ProjectAudioManager::PlayPlayRegion`, with
`EXPERIMENTAL_SEEK_BEHIND_CURSOR` off. The result is the returned token and
the state after the call. -/
def PlayPlayRegion (p : Project) (selectedRegion : SelectedRegion)
    (options : AudioIOStartStreamOptions) (mode : PlayMode)
    (backwards : Bool) (playWhiteSpace : Bool) : Int × Project :=
  if !CanStopAudioStream p then
    (-1, p)
  else
    let useMidi : Bool := !options.pScrubbingOptions
    let looped := options.playLooped
    let t0 := if backwards then selectedRegion.t1 else selectedRegion.t0
    let t1 := if backwards then selectedRegion.t0 else selectedRegion.t1
    let p1 := markMode p mode
    if p1.engine.busy then
      (-1, p1)
    else
      let cutpreview : Bool := decide (mode = PlayMode.cutPreviewPlay)
      if cutpreview && decide (t0 = t1) then
        (-1, p1)
      else
        let p2 := SetLastPlayMode p1 mode
        let hasaudio : Bool := hasAudio p2.tracks useMidi
        let latestEnd := if playWhiteSpace then t1 else GetEndTime p2.tracks
        if !hasaudio then
          (-1, p2)
        else
          let r := resolveRegion p2.tracks p2.selectedRegion t0 t1 looped backwards latestEnd
          if r.2 ≠ r.1 then
            startPlayback p2 options cutpreview backwards useMidi r.1 r.2
          else
            (-1, p2)

/-- `ProjectAudioManager::Stop`. The scope guard `finally` runs last. -/
def Stop (p : Project) (stopStream : Bool) : Project :=
  if !CanStopAudioStream p then
    p
  else
    let p1 := p.log Event.StopScrubbing
    let p2 :=
      if stopStream && p1.engine.busy then (SetStopping p1 true).log Event.ProcessIdle
      else p1
    let p3 := if stopStream then StopStream p2 else p2
    let p4 := SetCutting (SetLooping p3 false) false
    let p5 := EngineSetPaused (SetPaused p4 false) false
    let p6 := ClearCutPreviewTracks p5
    let p7 := (p6.log Event.ClearMeters).log Event.EnableDisableButtons
    SetStopping p7 false

/-! ## Recording -/

/-- The constant `DBL_MAX`, the largest finite `double`. -/
def DBL_MAX : Time := 2 ^ 1024 - 2 ^ 971

/-- Modelled from the spec: `WaveTrack::TimeToLongSamples` and
`LongSamplesToTime` are not among the sources; their composition quantizes a
time to the track's sample rate, here to the nearest sample. -/
def quantizeToRate (rate : Nat) (t : Time) : Time :=
  ((Int.floor (t * (rate : ℚ) + 1 / 2) : Int) : ℚ) / (rate : ℚ)

/-- Modelled from the spec: `TrackList::RegisterPendingChangedTrack` is not
among the sources; the replacement copy of a track is registered in the
staging area and the live track list is left alone. -/
def RegisterPendingChangedTrack (p : Project) (pending : Track) : Project :=
  { p with pendingUpdates := p.pendingUpdates ++ [pending] }

/-- Modelled from the spec: `TrackList::RegisterPendingNewTrack` is not among
the sources; the addition is registered in the staging area and the live track
list is left alone. -/
def RegisterPendingNewTrack (p : Project) (newTrack : Track) : Project :=
  { p with pendingNew := p.pendingNew ++ [{ leader := newTrack }] }

/-- Modelled from the spec: `TrackList::UpdatePendingTracks` is not among the
sources; it refreshes the non-sample data of the staged copies from their
originals, which the copies just made already carry. -/
def UpdatePendingTracks (p : Project) : Project :=
  p

/-- Modelled from the spec: `TrackList::GroupChannels` is not among the
sources; the `groupSize` staged tracks from `first` on become one
multi-channel unit. -/
def GroupChannels (groups : List ChannelGroup) (first : Nat) (groupSize : Nat) :
    List ChannelGroup :=
  let pre := groups.takeWhile (fun g => g.leader.id != first)
  let rest := groups.dropWhile (fun g => g.leader.id != first)
  match (rest.take groupSize).flatMap Channels with
  | [] => groups
  | l :: os => pre ++ [{ leader := l, others := os }] ++ rest.drop groupSize

/-- Modelled from the spec: `TrackList::ClearPendingTracks` is not among the
sources; the staged replacements and additions are discarded wholesale. -/
def ClearPendingTracks (p : Project) : Project :=
  { p with pendingUpdates := [], pendingNew := [] }

/-- Modelled from the spec: `TrackList::ApplyPendingTracks` is not among the
sources; each staged replacement takes the place of the track with its
identity and the staged additions are appended, then the staging area is
empty. -/
def ApplyPendingTracks (p : Project) : Project :=
  let replace (t : Track) : Track :=
    match p.pendingUpdates.find? (fun u => u.id == t.id) with
    | some u => u
    | none => t
  { p with
    tracks := p.tracks.map (fun g =>
      { leader := replace g.leader, others := g.others.map replace }) ++ p.pendingNew,
    pendingUpdates := [], pendingNew := [] }

/-- `ProjectAudioManager::CancelRecording`. -/
def CancelRecording (p : Project) : Project :=
  ClearPendingTracks p

/-- `ProjectAudioManager::OnCommitRecording`. -/
def OnCommitRecording (p : Project) : Project :=
  ApplyPendingTracks p

/-- The calls `DoRecord` makes on a pending copy that is padded:
`pending->Clear(endTime, t0)`, then `pending->Paste(endTime, newTrack)` where
`newTrack` holds the silence of `InsertSilence(0.0, t0 - endTime)`. -/
def paddingCalls (t0 endTime : Time) : List TrackOp :=
  [TrackOp.Clear endTime t0, TrackOp.PasteSilence endTime t0 endTime]

/-- The pending copy of a capture track in the append path of `DoRecord`:
when the test `endTime <= t0` holds, the padding calls are made on the copy.
The calls are recorded in `ops`; what they do to the audio is in `WaveTrack`,
outside the sources, and is not modelled, so the other fields are those of the
original track. -/
def pendingCopy (t0 : Time) (wt : Track) : Track :=
  if wt.endTime ≤ t0 then
    { wt with ops := wt.ops ++ paddingCalls t0 wt.endTime }
  else
    wt

/-- One round of the loop `for (const auto &wt : tracks.captureTracks)` of
`DoRecord`. The edits made through `pending` act on the staged copy. -/
def appendStep (t0 : Time) (st : Project × TransportTracks) (wt : Track) :
    Project × TransportTracks :=
  let prerollTrack : Bool := decide (wt ∈ st.2.playbackTracks)
  let tt1 : TransportTracks :=
    if prerollTrack then { st.2 with prerollTracks := st.2.prerollTracks ++ [wt] } else st.2
  let pending := pendingCopy t0 wt
  (RegisterPendingChangedTrack st.1 pending,
    { tt1 with captureTracks := tt1.captureTracks ++ [pending] })

/-- `nameSuffix.Replace(wxT(":"), wxT("-"))`. -/
def replaceColons (s : String) : String :=
  ⟨s.data.map (fun ch => if ch = ':' then '-' else ch)⟩

/-- The name `DoRecord` gives the new track of channel `c`. -/
def newTrackName (prefs : Prefs) (numTracks c : Nat) (isoDate isoTime : String) : String :=
  let defaultTrackName := prefs.defaultTrackName
  let defaultRecordingTrackName := prefs.recordingTrackName.getD defaultTrackName
  let baseTrackName :=
    if prefs.recordingNameCustom then defaultRecordingTrackName else defaultTrackName
  let s0 : String := ""
  let s1 := if prefs.useTrackNumber then s0 ++ toString (1 + numTracks + c) else s0
  let s2 :=
    if prefs.useDateStamp then (if !s1.isEmpty then s1 ++ "_" else s1) ++ isoDate else s1
  let s3 :=
    if prefs.useTimeStamp then (if !s2.isEmpty then s2 ++ "_" else s2) ++ isoTime else s2
  let nameSuffix := replaceColons s3
  if baseTrackName.isEmpty then nameSuffix
  else if nameSuffix.isEmpty then baseTrackName
  else baseTrackName ++ "_" ++ nameSuffix

/-- State of the loop that makes the new tracks. -/
structure NewTrackLoop where
  project : Project
  transportTracks : TransportTracks
  t0 : Time
  t1 : Time
  first : Option Nat := none

/-- One round of the loop `for (int c = 0; c < recordingChannels; c++)` of
`DoRecord`. -/
def newTrackStep (numTracks : Nat) (recordingChannels : Int) (st : NewTrackLoop) (c : Nat) :
    NewTrackLoop :=
  let p := st.project
  let newId := p.nextTrackId
  let first := match st.first with
    | none => some newId
    | some f => some f
  let t0 := if c = 0 then (if st.t0 < DBL_MAX then quantizeToRate p.rate st.t0 else st.t0) else st.t0
  let t1 := if c = 0 then (if st.t1 < DBL_MAX then quantizeToRate p.rate st.t1 else st.t1) else st.t1
  let newTrack : Track :=
    { id := newId, kind := TrackKind.Wave, startTime := t0, endTime := t0,
      name := newTrackName p.prefs numTracks c p.isoDate p.isoTime }
  let p1 := RegisterPendingNewTrack { p with nextTrackId := newId + 1 } newTrack
  let p2 :=
    if recordingChannels > 2 ∧ ¬ p1.tracksFitVerticallyZoomed then
      p1.log (Event.SetMinimized newId)
    else p1
  { project := p2.log (Event.SetFocus newId),
    transportTracks :=
      { st.transportTracks with
        captureTracks := st.transportTracks.captureTracks ++ [newTrack] },
    t0 := t0, t1 := t1, first := first }

/-- The branch `if (transportTracks.captureTracks.empty())` of `DoRecord`:
recording to new tracks. -/
def recordToNewTracks (p : Project) (transportTracks : TransportTracks) (t0 t1 : Time) :
    NewTrackLoop :=
  let numTracks := (LeadersWave p.tracks).length
  let recordingChannels : Int := max 1 p.prefs.recordChannels
  let st := (List.range recordingChannels.toNat).foldl
    (newTrackStep numTracks recordingChannels)
    { project := p, transportTracks := transportTracks, t0 := t0, t1 := t1 }
  match st.first with
  | none => st
  | some first =>
    { st with project :=
        { st.project with
          pendingNew := GroupChannels st.project.pendingNew first recordingChannels.toNat } }

/-- The block `if (appendRecord)` of `DoRecord`: every given capture track is
replaced by its pending copy. -/
def appendPending (p1 : Project) (tracks : TransportTracks) (t0 : Time) :
    Project × TransportTracks :=
  let transportTracks : TransportTracks := { tracks with captureTracks := [] }
  let appendRecord : Bool := !tracks.captureTracks.isEmpty
  if appendRecord then
    let st := tracks.captureTracks.foldl (appendStep t0) (p1, transportTracks)
    (UpdatePendingTracks st.1, st.2)
  else
    (p1, transportTracks)

/-- The part of `DoRecord` between `SetAppending` and the stream start: the
capture tracks are replaced by pending copies (append recording) or by new
tracks. -/
def prepareRecording (p1 : Project) (tracks : TransportTracks) (t0 t1 : Time) : NewTrackLoop :=
  let st1 := appendPending p1 tracks t0
  if st1.2.captureTracks.isEmpty then
    recordToNewTracks st1.1 st1.2 t0 t1
  else
    { project := st1.1, transportTracks := st1.2, t0 := t0, t1 := t1 }

/-- `ProjectAudioManager::DoRecord`. `menuAllowed` is the answer of
`MenuManager::TryToMakeActionAllowed`, which is outside the sources. -/
def DoRecord (p : Project) (tracks : TransportTracks) (t0 t1 : Time) (altAppearance : Bool)
    (options : AudioIOStartStreamOptions) : Bool × Project :=
  if !p.menuAllowed then
    (false, p)
  else if p.engine.busy then
    (false, p)
  else
    let p1 := SetAppending p (!altAppearance)
    let st2 := prepareRecording p1 tracks t0 t1
    let started := StartStream st2.project st2.transportTracks st2.t0 st2.t1 options
    let success : Bool := decide (started.1 ≠ 0)
    if success then
      (success, SetAudioIOToken started.2 started.1)
    else
      (success, (CancelRecording started.2).log (Event.ErrorDialog false))

/-- One staged edit of the pending-track area. -/
inductive PendingEdit where
  | changed (pending : Track)
  | added (newTrack : Track)
  | grouped (first groupSize : Nat)
  | updated
deriving DecidableEq

/-- Apply one staged edit. -/
def applyPendingEdit (p : Project) : PendingEdit → Project
  | PendingEdit.changed pending => RegisterPendingChangedTrack p pending
  | PendingEdit.added newTrack => RegisterPendingNewTrack p newTrack
  | PendingEdit.grouped first groupSize =>
    { p with pendingNew := GroupChannels p.pendingNew first groupSize }
  | PendingEdit.updated => UpdatePendingTracks p

/-- Whether an event is a `StartStream` call. -/
def Event.isStartStream : Event → Bool
  | Event.Engine (EngineCall.StartStream _ _ _ _) => true
  | _ => false

/-! ## Pause, the compound stop action and `OnRecord` -/

/-- `ProjectAudioManager::OnPause`, with `EXPERIMENTAL_SCRUBBING_SUPPORT` on.
`Stop()` is called with its default argument. -/
def OnPause (p : Project) : Project :=
  if !CanStopAudioStream p then
    p
  else
    let paused : Bool := !p.paused
    let p1 := SetPaused p paused
    let bStopInstead : Bool := paused && p1.engine.scrubbing && !p1.scrubberIsSpeedPlaying
    if bStopInstead then
      Stop p1 true
    else if p1.engine.scrubbing then
      p1.log (Event.ScrubberPause paused)
    else
      EngineSetPaused p1 paused

/-- `ProjectAudioManager::Pause`. -/
def Pause (p : Project) : Project :=
  if !CanStopAudioStream p then
    EngineSetPaused p (!p.engine.paused)
  else
    OnPause p

/-- Modelled from the spec: `AudioIOBase::IsStreamActive(int token)` is not
among the sources; the stream is active for a token when a stream is active
and the token is the live, non-zero token of that stream. -/
def IsStreamActiveFor (e : AudioIO) (token : Int) : Bool :=
  e.streamActive && decide (0 < token) && decide (token = e.activeToken)

/-- Modelled from the spec: `SelectedRegion::setTimes` is not among the
sources; the pair is stored normalized, with t0 ≤ t1. -/
def setTimes (t0 t1 : Time) : SelectedRegion :=
  if t1 < t0 then { t0 := t1, t1 := t0 } else { t0 := t0, t1 := t1 }

/-- Modelled from the spec: `SelectedRegion::setT0` without swapping is not
among the sources; t0 is changed and the region collapses to a point when the
new t0 lies beyond t1. -/
def setT0 (region : SelectedRegion) (t : Time) : SelectedRegion :=
  { t0 := t, t1 := if region.t1 < t then t else region.t1 }

/-- The power 2^e as a rational, for an integer exponent. -/
def pow2 (e : Int) : ℚ :=
  if 0 ≤ e then ((2 ^ e.toNat : Nat) : ℚ) else 1 / ((2 ^ (-e).toNat : Nat) : ℚ)

/-- The binary logarithm of a natural number by repeated halving, at most
`fuel` times. -/
def log2Fuel : Nat → Nat → Nat
  | 0, _ => 0
  | fuel + 1, n => if 2 ≤ n then log2Fuel fuel (n / 2) + 1 else 0

/-- The binary logarithm of a natural number, rounded down (0 at 0); it is
`Nat.log2`, by structural recursion. -/
def natLog2 (n : Nat) : Nat :=
  log2Fuel n n

/-- The integer k with 2^k ≤ q < 2^(k+1), for a positive rational q. -/
def floorLog2 (q : ℚ) : Int :=
  let k : Int := (natLog2 q.num.natAbs : Int) - (natLog2 q.den : Int)
  if pow2 k ≤ q then k else k - 1

/-- Round a non-negative rational to the nearest integer, a tie to the even
one. -/
def roundHalfEven (q : ℚ) : Int :=
  let f := Int.floor q
  let r := q - (f : ℚ)
  if r < 1 / 2 then f
  else if 1 / 2 < r then f + 1
  else if f % 2 = 0 then f else f + 1

/-- The `double` nearest to a rational, as IEEE 754 binary64 arithmetic
rounds an exact result: 53 significant bits, least exponent -1074 (subnormal
numbers), a tie to the even significand. An overflow is ±2^1024, which stands
for ±infinity and compares with the finite values as infinity does. -/
def roundToDouble (x : ℚ) : ℚ :=
  if x = 0 then 0
  else
    let a := |x|
    let e : Int := max (-1074) (floorLog2 a - 52)
    let r := ((roundHalfEven (a / pow2 e) : Int) : ℚ) * pow2 e
    let r1 := if pow2 1024 ≤ r then pow2 1024 else r
    if x < 0 then -r1 else r1

/-- The `double` expression `a - b`. -/
def doubleSub (a b : Time) : Time :=
  roundToDouble (a - b)

/-- The selection `DoPlayStopSelect` leaves, from the selection before and the
stream time. `fabs(t0 - time) < fabs(t1 - time)` compares the absolute values
of two `double` differences. -/
def reshapeSelection (selection : SelectedRegion) (time : Time)
    (click shift wasSpeedPlaying : Bool) : SelectedRegion :=
  if click && wasSpeedPlaying then
    selection
  else if shift && click then
    let t0 := selection.t0
    let t1 := selection.t1
    if time < t0 then
      setTimes time t1
    else if time > t1 then
      setTimes t0 time
    else if |doubleSub t0 time| < |doubleSub t1 time| then
      setTimes time t1
    else
      setTimes t0 time
  else if click then
    setTimes (max time 0) (max time 0)
  else
    setT0 selection time

/-- `ProjectAudioManager::DoPlayStopSelect(bool click, bool shift)`. -/
def DoPlayStopSelect (p : Project) (click shift : Bool) : Bool × Project :=
  if p.scrubberHasMark || IsStreamActiveFor p.engine p.audioIOToken then
    let time := p.engine.streamTime
    let selection := reshapeSelection p.selectedRegion time click shift p.scrubberWasSpeedPlaying
    (true, ({ p with selectedRegion := selection }).log Event.ModifyState)
  else
    (false, p)

/-- The value of `baseTrackName` in `DoRecord`. -/
def baseTrackName (prefs : Prefs) : String :=
  if prefs.recordingNameCustom then prefs.recordingTrackName.getD prefs.defaultTrackName
  else prefs.defaultTrackName

/-- The range accumulation `range.max( &Track::GetEndTime )`: the greatest end
time, starting from the lowest `double`. -/
def maxEndTime (ts : List Track) : Time :=
  ts.foldl (fun acc t => max acc t.endTime) (-DBL_MAX)

/-- `ProjectAudioManager::UseDuplex`. -/
def UseDuplex (p : Project) : Bool :=
  p.prefs.duplex

/-- The loop of `OnRecord` that removes the recording tracks from the
playback tracks: `std::find` and `erase` of the first occurrence. -/
def removeRecordingTracks (playbackTracks existingTracks : List Track) : List Track :=
  existingTracks.foldl (fun acc wt => acc.erase wt) playbackTracks

/-- What `OnRecord` passes to `DoRecord`. -/
structure RecordRequest where
  transportTracks : TransportTracks
  t0 : Time
  t1 : Time
deriving DecidableEq

/-- The body of `OnRecord` up to the call of `DoRecord`. `none` stands for an
out-of-bounds access inside `ChooseExistingRecordingTracks`. -/
def OnRecordRequest (p : Project) (altAppearance : Bool) : Option RecordRequest :=
  let bPreferNewTrack := p.prefs.preferNewTrackRecord
  let appendRecord : Bool := altAppearance == bPreferNewTrack
  let selT0 := p.selectedRegion.t0
  let selT1 := p.selectedRegion.t1
  let t0 := selT0
  let t1 := if selT1 = t0 then DBL_MAX else selT1
  let chosen : Option (List Track × Time × Time) :=
    if appendRecord then
      let trackRange := AnyWave (allTracks p.tracks)
      let t1a := if t1 ≤ selT0 ∧ selT1 > selT0 then selT1 else DBL_MAX
      match ChooseExistingRecordingTracks p.prefs.recordChannels p.tracks true with
      | none => none
      | some existingTracks =>
        if !existingTracks.isEmpty then
          some (existingTracks,
            max t0 (maxEndTime (trackRange.filter (fun t => t.selected))), t1a)
        else
          match ChooseExistingRecordingTracks p.prefs.recordChannels p.tracks false with
          | none => none
          | some existingTracks2 =>
            some (existingTracks2, max t0 (maxEndTime trackRange), t1a)
    else
      some ([], t0, t1)
  match chosen with
  | none => none
  | some (existingTracks, t0r, t1r) =>
    let transportTracks : TransportTracks :=
      if UseDuplex p then
        let all := GetAllPlaybackTracks (allTracks p.tracks) false true
        { all with playbackTracks := removeRecordingTracks all.playbackTracks existingTracks }
      else
        {}
    some { transportTracks := { transportTracks with captureTracks := existingTracks },
           t0 := t0r, t1 := t1r }

/-- `ProjectAudioManager::OnRecord`: the request is handed to `DoRecord` with
the default play options. -/
def OnRecord (p : Project) (altAppearance : Bool) : Option (Bool × Project) :=
  match OnRecordRequest p altAppearance with
  | none => none
  | some request =>
    some (DoRecord p request.transportTracks request.t0 request.t1 altAppearance {})

/-- Whether every channel of every group has the kind and the selection state
of its leader. -/
def ChannelsFollowLeader (groups : List ChannelGroup) : Prop :=
  ∀ g ∈ groups, ∀ t ∈ g.others, t.kind = g.leader.kind ∧ t.selected = g.leader.selected

/-- The bookkeeping invariant of the window scan: the entries of
`channelCounts` add up to `candidates.size()` and each entry is at least 1. -/
def Bookkeeping (channelCounts : List Nat) (candidates : List Track) : Prop :=
  channelCounts.sum = candidates.length ∧ ∀ c ∈ channelCounts, 1 ≤ c

/-- The bookkeeping invariant can be checked. -/
@[instance]
def Bookkeeping.decidable (channelCounts : List Nat) (candidates : List Track) :
    Decidable (Bookkeeping channelCounts candidates) := by
  unfold Bookkeeping
  exact inferInstance

/-- Whether the channels follow their leaders can be checked. -/
@[instance]
def ChannelsFollowLeader.decidable (groups : List ChannelGroup) :
    Decidable (ChannelsFollowLeader groups) := by
  unfold ChannelsFollowLeader
  exact inferInstance

/-- A second selected stereo track. -/
def stereoSel2 : ChannelGroup :=
  { leader := { id := 7, selected := true }, others := [{ id := 8, selected := true }] }

/-! ## Sample projects -/

/-- A project whose only track, a wave track, spans the times 5 to 10. -/
def lateProject : Project :=
  { tracks := [{ leader := { id := 1, startTime := 5, endTime := 10 } }] }

/-- A project with one wave track from 0 to 10 and the selection (1, 3). -/
def loopProject : Project :=
  { tracks := [{ leader := { id := 1, startTime := 0, endTime := 10 } }],
    selectedRegion := { t0 := 1, t1 := 3 } }

/-- The project `loopProject` when the engine refuses to start a stream. -/
def failingProject : Project :=
  { loopProject with engine := { startResult := 0 } }

/-- The project `loopProject` with a cut-preview set left over and no track
selected. -/
def staleCutProject : Project :=
  { loopProject with cutPreviewTracks := some [{ id := 9 }] }

/-- A project with one selected wave track from 0 to 10 and the default
cut-preview padding (2 before, 1 after). -/
def cutProject : Project :=
  { tracks := [{ leader := { id := 1, selected := true, startTime := 0, endTime := 10 } }] }

/-- A project that owns the active stream, not paused itself, while the
engine is paused: the state after another project, which may not stop this
stream, called `Pause` and toggled the pause of the engine. -/
def pausedByOtherProject : Project :=
  { loopProject with
    audioIOToken := 1,
    engine := { streamActive := true, busy := true, owningProject := some 0, paused := true,
                activeToken := 1 } }

/-- A project that owns a scrub session of the engine. -/
def scrubbingProject : Project :=
  { loopProject with
    audioIOToken := 1,
    engine := { streamActive := true, busy := true, owningProject := some 0, scrubbing := true,
                activeToken := 1 } }

/-- A project that owns the active stream, with the selection (2, 8). -/
def streamingProject : Project :=
  { tracks := [{ leader := { id := 1, startTime := 0, endTime := 10 } }],
    selectedRegion := { t0 := 2, t1 := 8 },
    audioIOToken := 1,
    engine := { streamActive := true, busy := true, owningProject := some 0, activeToken := 1 } }

/-- The project `streamingProject` with the stream time set. -/
def streamingAt (time : Time) : Project :=
  { streamingProject with engine := { streamingProject.engine with streamTime := time } }

/-- A project whose default track name holds a colon, with the time stamp
enabled in the names of new recording tracks. -/
def colonProject : Project :=
  { loopProject with prefs := { defaultTrackName := "Take: 1", useTimeStamp := true } }

/-- A project with a selected stereo track that ends at 10, a selected mono
track that ends at 4 and the selection (3, 6). -/
def appendProject : Project :=
  { tracks :=
      [{ leader := { id := 1, selected := true, endTime := 10 },
         others := [{ id := 2, selected := true, endTime := 10 }] },
       { leader := { id := 3, selected := true, endTime := 4 } }],
    selectedRegion := { t0 := 3, t1 := 6 } }

/-- A stereo track whose leader is selected and whose second channel is
not. -/
def stereoHalfSel : ChannelGroup :=
  { leader := { id := 10, selected := true, endTime := 4 },
    others := [{ id := 11, selected := false, endTime := 10 }] }

/-- The `double` nearest to 0.1. -/
def doubleTenth : Time := 3602879701896397 / 36028797018963968

/-- The `double` nearest to 0.9. -/
def doubleNineTenths : Time := 8106479329266893 / 9007199254740992

/-- A project that owns the active stream, with the selection (0.1, 0.9) in
`double`s and the stream time 0.5. -/
def nearTieProject : Project :=
  { tracks := [{ leader := { id := 1, startTime := 0, endTime := 10 } }],
    selectedRegion := { t0 := doubleTenth, t1 := doubleNineTenths },
    audioIOToken := 1,
    engine := { streamActive := true, busy := true, owningProject := some 0, activeToken := 1,
                streamTime := 1 / 2 } }

/-- A project that faces a stream owned by another project. -/
def foreignStreamProject : Project :=
  { loopProject with engine := { streamActive := true, busy := true, owningProject := some 7 } }

/-- A project that owns the busy engine, in the middle of a looped play with a
cut-preview set left over. -/
def playingProject : Project :=
  { loopProject with
    looping := true, paused := true,
    cutPreviewTracks := some [{ id := 9 }],
    engine := { streamActive := true, busy := true, owningProject := some 0, paused := true } }

/-! ## Lemmas on the window scan -/

theorem length_allChannels (run : List ChannelGroup) :
    (allChannels run).length = channelSum run := by
  induction run with
  | nil => rfl
  | cons g t ih =>
    simp only [allChannels, channelSum, List.flatMap_cons, List.length_append, List.map_cons,
      List.sum_cons] at ih ⊢
    omega

theorem channelSum_append (a b : List ChannelGroup) :
    channelSum (a ++ b) = channelSum a + channelSum b := by
  simp [channelSum]

theorem channelSum_cons (g : ChannelGroup) (t : List ChannelGroup) :
    channelSum (g :: t) = (Channels g).length + channelSum t := by
  simp [channelSum]

theorem channelSum_le_of_suffix {w l : List ChannelGroup} (h : w <:+ l) :
    channelSum w ≤ channelSum l := by
  obtain ⟨p, rfl⟩ := h
  rw [channelSum_append]
  omega

theorem length_Channels_pos (g : ChannelGroup) : 1 ≤ (Channels g).length := by
  simp [Channels]

/-- The discard loop keeps the longest suffix of the window that still leaves
room for the `c` channels of the current track. -/
theorem discardOldest_spec (n c : Nat) (hc : c ≤ n) (win : List ChannelGroup) :
    ∃ win1, win1 <:+ win ∧
      discardOldest true n c (win.map (fun g => (Channels g).length)) (allChannels win)
        = some (win1.map (fun g => (Channels g).length), allChannels win1) ∧
      c + channelSum win1 ≤ n ∧
      ∀ w, w <:+ win → win1.length < w.length → n < c + channelSum w := by
  induction win with
  | nil =>
    refine ⟨[], List.suffix_refl _, ?_, ?_, ?_⟩
    · simp [discardOldest, allChannels]
      omega
    · simpa [channelSum] using hc
    · intro w hw hlt
      have := List.suffix_nil.mp hw
      subst this
      simp at hlt
  | cons g t ih =>
    by_cases hover : c + (allChannels (g :: t)).length > n
    · obtain ⟨win1, hsuf, hrun, hfit, hmax⟩ := ih
      refine ⟨win1, hsuf.trans (List.suffix_cons g t), ?_, hfit, ?_⟩
      · have hdrop : List.drop (Channels g).length (allChannels (g :: t)) = allChannels t := by
          simp [allChannels, List.flatMap_cons]
        have hle : (Channels g).length ≤ (allChannels (g :: t)).length := by
          simp [allChannels, List.flatMap_cons]
        simp only [List.map_cons, discardOldest, Bool.true_and, decide_eq_true_eq, hover,
          if_true, hle, hdrop]
        exact hrun
      · intro w hw hlt
        rcases List.suffix_cons_iff.mp hw with h | h
        · subst h
          rw [← length_allChannels]
          exact hover
        · exact hmax w h hlt
    · refine ⟨g :: t, List.suffix_refl _, ?_, ?_, ?_⟩
      · simp only [List.map_cons, discardOldest, Bool.true_and, decide_eq_true_eq, hover,
          if_false]
      · rw [← length_allChannels]
        omega
      · intro w hw hlt
        have := hw.length_le
        omega

/-- The channel loop returns exactly when the last channel of the track fills
the last free slot. -/
theorem pushChannels_spec (n : Nat) (chs cands : List Track)
    (hfit : cands.length + chs.length ≤ n) :
    pushChannels n chs cands =
      if cands.length + chs.length = n ∧ chs ≠ [] then PushResult.returned (cands ++ chs)
      else PushResult.finished (cands ++ chs) := by
  induction chs generalizing cands with
  | nil => simp [pushChannels]
  | cons ch rest ih =>
    simp only [List.length_cons] at hfit
    by_cases hfull : (cands ++ [ch]).length = n
    · have hrest : rest = [] := by
        simp only [List.length_append, List.length_singleton] at hfull
        exact List.eq_nil_of_length_eq_zero (by omega)
      subst hrest
      simp only [List.length_append, List.length_singleton] at hfull
      simp [pushChannels, hfull]
    · have hfit2 : (cands ++ [ch]).length + rest.length ≤ n := by
        simp only [List.length_append, List.length_singleton]
        omega
      rw [pushChannels, if_neg hfull, ih _ hfit2]
      simp only [List.length_append, List.length_singleton] at hfull ⊢
      by_cases hr : rest = []
      · subst hr
        simp [hfull]
      · have e1 : cands.length + 1 + rest.length = cands.length + (ch :: rest).length := by
          simp only [List.length_cons]
          omega
        simp [hr, e1]

theorem channelSum_singleton (g : ChannelGroup) : channelSum [g] = (Channels g).length := by
  simp [channelSum]

theorem allChannels_concat (w : List ChannelGroup) (g : ChannelGroup) :
    allChannels (w ++ [g]) = allChannels w ++ Channels g := by
  simp [allChannels]

/-- A window of `l ++ [g]` lies in `l` or is a suffix that ends with `g`. -/
theorem infix_concat_cases {l run : List ChannelGroup} {g : ChannelGroup}
    (h : run <:+: l ++ [g]) :
    run <:+: l ∨ ∃ u, run = u ++ [g] ∧ u <:+ l := by
  rcases List.infix_concat_iff.mp h with h1 | h1
  · rcases List.suffix_concat_iff.mp h1 with h2 | ⟨u, hu, hsuf⟩
    · subst h2
      exact Or.inl List.nil_infix
    · exact Or.inr ⟨u, hu, hsuf⟩
  · exact Or.inl h1

/-- Invariant of the strict scan. `processed` are the tracks already seen,
`win` the window held in `channelCounts` and `candidates`: it is the longest
suffix of `processed` with fewer than `n` channels, and no window of
`processed` has exactly `n` channels. -/
theorem scanTracks_strict (n : Nat) (hn : 1 ≤ n) (rest : List ChannelGroup) :
    ∀ (processed win : List ChannelGroup),
      win <:+ processed →
      channelSum win < n →
      (∀ run, run <:+: processed → channelSum run ≠ n) →
      (∀ w, w <:+ processed → channelSum w < n → w.length ≤ win.length) →
      ∃ r, scanTracks true n rest (win.map (fun g => (Channels g).length)) (allChannels win)
          = some r ∧
        ((r = [] ∧ ∀ run, run <:+: processed ++ rest → channelSum run ≠ n) ∨
         (∃ pre run post, processed ++ rest = pre ++ run ++ post ∧ r = allChannels run ∧
            channelSum run = n ∧
            ∀ pre1 run1 post1, processed ++ rest = pre1 ++ run1 ++ post1 →
              channelSum run1 = n → (pre ++ run).length ≤ (pre1 ++ run1).length)) := by
  induction rest with
  | nil =>
    intro processed win _ _ hnone _
    refine ⟨[], by simp [scanTracks], Or.inl ⟨rfl, ?_⟩⟩
    simpa using hnone
  | cons g rest ih =>
    intro processed win hwin hlt hnone hmax
    have hc1 := length_Channels_pos g
    by_cases hbig : (Channels g).length > n
    · -- the track alone has too many channels: restart with an empty window
      have hstep : scanTracks true n (g :: rest) (win.map (fun g => (Channels g).length))
          (allChannels win) = scanTracks true n rest [] [] := by
        simp [scanTracks, hbig]
      have hIH := ih (processed ++ [g]) [] List.nil_suffix (by simp [channelSum]; omega)
        (by
          intro run hrun
          rcases infix_concat_cases hrun with h | ⟨u, hu, _⟩
          · exact hnone run h
          · subst hu
            rw [channelSum_append, channelSum_singleton]
            omega)
        (by
          intro w hw hwlt
          rcases List.suffix_concat_iff.mp hw with h | ⟨u, hu, _⟩
          · subst h
            simp
          · subst hu
            rw [channelSum_append, channelSum_singleton] at hwlt
            omega)
      rw [hstep]
      simpa [allChannels] using hIH
    · have hcn : (Channels g).length ≤ n := by omega
      obtain ⟨win1, hsuf1, hrun1, hfit1, hmax1⟩ := discardOldest_spec n (Channels g).length hcn win
      have hpush := pushChannels_spec n (Channels g) (allChannels win1)
        (by rw [length_allChannels]; omega)
      have hne : Channels g ≠ [] := by simp [Channels]
      by_cases hfull : (allChannels win1).length + (Channels g).length = n
      · -- the track fills the window exactly: return
        rw [if_pos ⟨hfull, hne⟩] at hpush
        have hstep : scanTracks true n (g :: rest) (win.map (fun g => (Channels g).length))
            (allChannels win) = some (allChannels win1 ++ Channels g) := by
          simp [scanTracks, hbig, hrun1, hpush]
        obtain ⟨p1, hp1⟩ := hsuf1.trans hwin
        refine ⟨_, hstep, Or.inr ⟨p1, win1 ++ [g], rest, ?_, ?_, ?_, ?_⟩⟩
        · rw [← hp1]
          simp
        · simp [allChannels]
        · rw [channelSum_append, channelSum_singleton, ← length_allChannels]
          exact hfull
        · intro pre1 run1 post1 hdec hsum
          by_contra hcon
          have hlen : (pre1 ++ run1).length ≤ processed.length := by
            have e : (p1 ++ (win1 ++ [g])).length = processed.length + 1 := by
              rw [← hp1]
              simp only [List.length_append, List.length_singleton]
              omega
            omega
          have hpre : pre1 ++ run1 <+: processed :=
            @List.prefix_of_prefix_length_le _ (pre1 ++ run1) processed (processed ++ g :: rest)
              ⟨post1, hdec.symm⟩ (List.prefix_append _ _) hlen
          exact hnone run1 ((List.suffix_append pre1 run1).isInfix.trans hpre.isInfix) hsum
      · -- the window is still short: go on with the next track
        rw [if_neg (fun h => hfull h.1)] at hpush
        have hstep : scanTracks true n (g :: rest) (win.map (fun g => (Channels g).length))
            (allChannels win) = scanTracks true n rest
              ((win1 ++ [g]).map (fun g => (Channels g).length)) (allChannels (win1 ++ [g])) := by
          rw [List.map_append, allChannels_concat]
          simp [scanTracks, hbig, hrun1, hpush]
        have hshort : channelSum (win1 ++ [g]) < n := by
          rw [channelSum_append, channelSum_singleton]
          rw [length_allChannels] at hfull
          omega
        have key : ∀ u, u <:+ processed → channelSum u + (Channels g).length ≤ n →
            u.length ≤ win1.length := by
          intro u hu hsum
          by_contra hcon
          have hu_win : u <:+ win :=
            List.suffix_of_suffix_length_le hu hwin (hmax u hu (by omega))
          have := hmax1 u hu_win (by omega)
          omega
        have hIH := ih (processed ++ [g]) (win1 ++ [g])
          (by
            obtain ⟨p1, hp1⟩ := hsuf1.trans hwin
            exact ⟨p1, by rw [← hp1]; simp⟩)
          hshort
          (by
            intro run hrun
            rcases infix_concat_cases hrun with h | ⟨u, hu, husuf⟩
            · exact hnone run h
            · subst hu
              intro hsum
              rw [channelSum_append, channelSum_singleton] at hsum
              have hlen := key u husuf (by omega)
              have hle := channelSum_le_of_suffix
                (List.suffix_of_suffix_length_le husuf (hsuf1.trans hwin) hlen)
              rw [length_allChannels] at hfull
              omega)
          (by
            intro w hw hwlt
            rcases List.suffix_concat_iff.mp hw with h | ⟨u, hu, husuf⟩
            · subst h
              simp
            · subst hu
              rw [channelSum_append, channelSum_singleton] at hwlt
              have hlen := key u husuf (by omega)
              simp only [List.length_append, List.length_singleton]
              omega)
        rw [hstep]
        simpa using hIH

/-- Strict mode on the whole scanned sequence: either nothing is returned and
no window has `n` channels, or the earliest-ending window with `n` channels is
returned. -/
theorem choose_strict_core (groups : List ChannelGroup) (selectedOnly : Bool)
    (n : Int) (hn : n = 1 ∨ n = 2) :
    ∃ r, ChooseExistingRecordingTracks n groups selectedOnly = some r ∧
      ((r = [] ∧ ∀ run, run <:+: scannedSequence groups selectedOnly →
          channelSum run ≠ n.toNat) ∨
       (∃ pre run post, scannedSequence groups selectedOnly = pre ++ run ++ post ∧
          r = allChannels run ∧ channelSum run = n.toNat ∧
          ∀ pre1 run1 post1, scannedSequence groups selectedOnly = pre1 ++ run1 ++ post1 →
            channelSum run1 = n.toNat → (pre ++ run).length ≤ (pre1 ++ run1).length)) := by
  have h1 : 1 ≤ n.toNat := by rcases hn with h | h <;> subst h <;> decide
  have h2 : n.toNat ≤ 2 := by rcases hn with h | h <;> subst h <;> decide
  have hmax : (max 0 n).toNat = n.toNat := by rcases hn with h | h <;> subst h <;> decide
  have hrun : ChooseExistingRecordingTracks n groups selectedOnly
      = scanTracks true n.toNat (scannedSequence groups selectedOnly) [] [] := by
    simp [ChooseExistingRecordingTracks, hmax, h2]
  have hcore := scanTracks_strict n.toNat h1 (scannedSequence groups selectedOnly) [] []
    (List.suffix_refl _) (by simp [channelSum]; omega)
    (by
      intro run hrun
      have := List.infix_nil.mp hrun
      subst this
      simp [channelSum]
      omega)
    (by
      intro w hw _
      have := List.suffix_nil.mp hw
      subst this
      simp)
  rw [hrun]
  simpa [allChannels] using hcore

/-- Every group of the scanned sequence is a wave leader, and a selected one
when only selected tracks are scanned. -/
theorem mem_scannedSequence {groups : List ChannelGroup} {selectedOnly : Bool}
    {g : ChannelGroup} (h : g ∈ scannedSequence groups selectedOnly) :
    g ∈ groups ∧ g.leader.kind = TrackKind.Wave ∧
      (selectedOnly = true → g.leader.selected = true) := by
  cases selectedOnly <;>
    simp [scannedSequence, SelectedOnly, LeadersWave, List.mem_filter] at h ⊢ <;> tauto

/-! ## Claims on `ChooseExistingRecordingTracks` -/

/-- C1, counterexample: two channels, `selectedOnly`, and a stereo track
whose leader is selected and whose second channel is not. The selection is
read on the leader only, so both channels are returned, and the second one is
not selected. -/
theorem choose_returns_unselected_channel :
    ChooseExistingRecordingTracks 2 [stereoHalfSel] true
      = some [{ id := 10, selected := true, endTime := 4 },
              { id := 11, selected := false, endTime := 10 }] ∧
    ¬ (∀ r, ChooseExistingRecordingTracks 2 [stereoHalfSel] true = some r →
        ∀ t ∈ r, t.selected = true) := by
  have h : ChooseExistingRecordingTracks 2 [stereoHalfSel] true
      = some [{ id := 10, selected := true, endTime := 4 },
              { id := 11, selected := false, endTime := 10 }] := by decide
  refine ⟨h, fun hall => ?_⟩
  have hsel := hall _ h { id := 11, selected := false, endTime := 10 } (by simp)
  cases hsel

/-- C1, amended: in strict mode (`RecordChannels` n = 1 or 2) the function
returns for every track list and either `selectedOnly`, and a non-empty result
is made of all the channels, in list order, of a run of wave leaders that are
consecutive in the scanned sequence; it has exactly n channels. With
`selectedOnly` every leader of the run is selected, and so is every returned
track when the channels of a group share the selection state of their
leader. -/
theorem choose_strict_whole_tracks (groups : List ChannelGroup) (selectedOnly : Bool)
    (n : Int) (hn : n = 1 ∨ n = 2) :
    ∃ r, ChooseExistingRecordingTracks n groups selectedOnly = some r ∧
      (r ≠ [] →
        ∃ pre run post, scannedSequence groups selectedOnly = pre ++ run ++ post ∧
          r = allChannels run ∧ channelSum run = n.toNat ∧ (r.length : Int) = n ∧
          (∀ g ∈ run, g.leader.kind = TrackKind.Wave) ∧
          (selectedOnly = true →
            (∀ g ∈ run, g.leader.selected = true) ∧
            ((∀ g ∈ groups, ∀ t ∈ g.others, t.selected = g.leader.selected) →
              ∀ t ∈ r, t.selected = true))) := by
  obtain ⟨r, hr, hcase⟩ := choose_strict_core groups selectedOnly n hn
  refine ⟨r, hr, fun hne => ?_⟩
  rcases hcase with ⟨hnil, _⟩ | ⟨pre, run, post, hdec, hrun, hsum, _⟩
  · exact absurd hnil hne
  · have hmem : ∀ g ∈ run, g ∈ scannedSequence groups selectedOnly := by
      intro g hg
      rw [hdec]
      simp [hg]
    have hlen : (r.length : Int) = n := by
      rw [hrun, length_allChannels, hsum]
      rcases hn with h | h <;> subst h <;> decide
    refine ⟨pre, run, post, hdec, hrun, hsum, hlen,
      fun g hg => (mem_scannedSequence (hmem g hg)).2.1, fun hsel => ⟨?_, ?_⟩⟩
    · exact fun g hg => (mem_scannedSequence (hmem g hg)).2.2 hsel
    · intro huniform t ht
      rw [hrun] at ht
      obtain ⟨g, hg, htg⟩ := List.mem_flatMap.mp ht
      have hgs := mem_scannedSequence (hmem g hg)
      rcases List.mem_cons.mp htg with h | h
      · rw [h]
        exact hgs.2.2 hsel
      · rw [huniform g hgs.1 t h]
        exact hgs.2.2 hsel

/-- Witness of C1: two channels, a selected mono track, an unselected stereo
track and a second selected mono track, choosing among the selected. -/
theorem choose_strict_whole_tracks_witness :
    ((2 : Int) = 1 ∨ (2 : Int) = 2) ∧
    ∃ r, ChooseExistingRecordingTracks 2 [monoSel, stereoUnsel, monoSel2] true = some r ∧
      (r ≠ [] →
        ∃ pre run post,
          scannedSequence [monoSel, stereoUnsel, monoSel2] true = pre ++ run ++ post ∧
          r = allChannels run ∧ channelSum run = (2 : Int).toNat ∧ (r.length : Int) = 2 ∧
          (∀ g ∈ run, g.leader.kind = TrackKind.Wave) ∧
          (true = true →
            (∀ g ∈ run, g.leader.selected = true) ∧
            ((∀ g ∈ [monoSel, stereoUnsel, monoSel2], ∀ t ∈ g.others,
                t.selected = g.leader.selected) →
              ∀ t ∈ r, t.selected = true))) :=
  ⟨by decide, choose_strict_whole_tracks [monoSel, stereoUnsel, monoSel2] true 2 (by decide)⟩

/-- C2: in strict mode (n = 1 or 2) the result is empty exactly when no run of
consecutive tracks of the scanned sequence has n channels in total; when such a
run exists the result is the channels of the matching run that ends earliest.
With n = 2, tracks [mono selected, stereo unselected] and `selectedOnly`, the
result is empty. -/
theorem choose_strict_first_fit (groups : List ChannelGroup) (selectedOnly : Bool)
    (n : Int) (hn : n = 1 ∨ n = 2) :
    (∃ r, ChooseExistingRecordingTracks n groups selectedOnly = some r ∧
      (r = [] ↔ ¬ ∃ pre run post, scannedSequence groups selectedOnly = pre ++ run ++ post ∧
          (channelSum run : Int) = n) ∧
      ((∃ pre run post, scannedSequence groups selectedOnly = pre ++ run ++ post ∧
          (channelSum run : Int) = n) →
        ∃ pre run post, scannedSequence groups selectedOnly = pre ++ run ++ post ∧
          r = allChannels run ∧ (channelSum run : Int) = n ∧
          ∀ pre1 run1 post1, scannedSequence groups selectedOnly = pre1 ++ run1 ++ post1 →
            (channelSum run1 : Int) = n → (pre ++ run).length ≤ (pre1 ++ run1).length)) ∧
    ChooseExistingRecordingTracks 2 [monoSel, stereoUnsel] true = some [] := by
  refine ⟨?_, by decide⟩
  have hcast : ∀ k : Nat, ((k : Int) = n ↔ k = n.toNat) := by
    intro k
    rcases hn with h | h <;> subst h <;> omega
  have hpos : 1 ≤ n.toNat := by rcases hn with h | h <;> subst h <;> decide
  obtain ⟨r, hr, hcase⟩ := choose_strict_core groups selectedOnly n hn
  refine ⟨r, hr, ?_, ?_⟩
  · rcases hcase with ⟨hnil, hnone⟩ | ⟨pre, run, post, hdec, hrun, hsum, _⟩
    · refine ⟨fun _ => ?_, fun _ => hnil⟩
      rintro ⟨pre, run, post, hdec, hsum⟩
      exact hnone run ⟨pre, post, hdec.symm⟩ ((hcast _).mp hsum)
    · have hne : r ≠ [] := by
        intro h
        have hlen : r.length = n.toNat := by rw [hrun, length_allChannels, hsum]
        rw [h] at hlen
        simp at hlen
        omega
      exact ⟨fun h => absurd h hne, fun h => absurd ⟨pre, run, post, hdec, (hcast _).mpr hsum⟩ h⟩
  · rintro ⟨pre0, run0, post0, hdec0, hsum0⟩
    rcases hcase with ⟨_, hnone⟩ | ⟨pre, run, post, hdec, hrun, hsum, hfirst⟩
    · exact absurd ((hcast _).mp hsum0) (hnone run0 ⟨pre0, post0, hdec0.symm⟩)
    · exact ⟨pre, run, post, hdec, hrun, (hcast _).mpr hsum,
        fun pre1 run1 post1 h1 h2 => hfirst pre1 run1 post1 h1 ((hcast _).mp h2)⟩

/-- Witness of C2: one channel, a selected stereo track followed by a selected
mono track. -/
theorem choose_strict_first_fit_witness :
    ((1 : Int) = 1 ∨ (1 : Int) = 2) ∧
    ((∃ r, ChooseExistingRecordingTracks 1 [stereoSel, monoSel2] true = some r ∧
      (r = [] ↔ ¬ ∃ pre run post, scannedSequence [stereoSel, monoSel2] true = pre ++ run ++ post ∧
          (channelSum run : Int) = 1) ∧
      ((∃ pre run post, scannedSequence [stereoSel, monoSel2] true = pre ++ run ++ post ∧
          (channelSum run : Int) = 1) →
        ∃ pre run post, scannedSequence [stereoSel, monoSel2] true = pre ++ run ++ post ∧
          r = allChannels run ∧ (channelSum run : Int) = 1 ∧
          ∀ pre1 run1 post1, scannedSequence [stereoSel, monoSel2] true = pre1 ++ run1 ++ post1 →
            (channelSum run1 : Int) = 1 → (pre ++ run).length ≤ (pre1 ++ run1).length)) ∧
    ChooseExistingRecordingTracks 2 [monoSel, stereoUnsel] true = some []) :=
  ⟨by decide, choose_strict_first_fit [stereoSel, monoSel2] true 1 (by decide)⟩

/-! ## Claims on the transport state machine -/

/-- C4: when `CanStopAudioStream` is false (an active, non-monitoring stream
that this project does not own), `Stop` and `PlayPlayRegion` leave the whole
state as it was - session flags, last play mode, stored token, cut-preview set,
and the trace, so no engine call is issued - and `PlayPlayRegion` returns -1. -/
theorem guard_refuses_stop_and_play (p : Project) (hguard : CanStopAudioStream p = false)
    (stopStream : Bool) (selectedRegion : SelectedRegion)
    (options : AudioIOStartStreamOptions) (mode : PlayMode) (backwards playWhiteSpace : Bool) :
    (p.engine.streamActive = true ∧ p.engine.monitoring = false ∧
      p.engine.owningProject ≠ some p.id) ∧
    Stop p stopStream = p ∧
    PlayPlayRegion p selectedRegion options mode backwards playWhiteSpace = (-1, p) ∧
    (Stop p stopStream).trace = p.trace ∧
    (PlayPlayRegion p selectedRegion options mode backwards playWhiteSpace).2.trace = p.trace := by
  have hstop : Stop p stopStream = p := by simp [Stop, hguard]
  have hplay : PlayPlayRegion p selectedRegion options mode backwards playWhiteSpace = (-1, p) := by
    simp [PlayPlayRegion, hguard]
  refine ⟨?_, hstop, hplay, by rw [hstop], by rw [hplay]⟩
  simpa [CanStopAudioStream, and_assoc] using hguard

/-- Witness of C4: a project facing another project's stream. -/
theorem guard_refuses_stop_and_play_witness :
    CanStopAudioStream foreignStreamProject = false ∧
    ((foreignStreamProject.engine.streamActive = true ∧
        foreignStreamProject.engine.monitoring = false ∧
        foreignStreamProject.engine.owningProject ≠ some foreignStreamProject.id) ∧
      Stop foreignStreamProject true = foreignStreamProject ∧
      PlayPlayRegion foreignStreamProject { t0 := 1, t1 := 3 } {} PlayMode.loopedPlay false false
        = (-1, foreignStreamProject) ∧
      (Stop foreignStreamProject true).trace = foreignStreamProject.trace ∧
      (PlayPlayRegion foreignStreamProject { t0 := 1, t1 := 3 } {} PlayMode.loopedPlay false
        false).2.trace = foreignStreamProject.trace) :=
  ⟨by decide,
    guard_refuses_stop_and_play foreignStreamProject (by decide) true { t0 := 1, t1 := 3 } {}
      PlayMode.loopedPlay false false⟩

/-- C5: when `CanStopAudioStream` is true, after `Stop` the flags Looping,
Cutting, Paused and Stopping are false, the cut-preview set is absent and the
engine is unpaused. What `Stop` does, in order: Stopping is set (and idle events
flushed) only when `stopStream` holds and the engine is busy; `StopStream` is
issued exactly when `stopStream` holds; Looping, Cutting and Paused are cleared
and the engine told `SetPaused(false)`; Stopping is cleared last. -/
theorem stop_postcondition (p : Project) (stopStream : Bool)
    (hcan : CanStopAudioStream p = true) :
    (Stop p stopStream).looping = false ∧
    (Stop p stopStream).cutting = false ∧
    (Stop p stopStream).paused = false ∧
    (Stop p stopStream).stopping = false ∧
    (Stop p stopStream).cutPreviewTracks = none ∧
    (Stop p stopStream).engine.paused = false ∧
    (Stop p stopStream).trace =
      p.trace ++ [Event.StopScrubbing]
        ++ (if stopStream = true ∧ p.engine.busy = true
            then [Event.SetStopping true, Event.ProcessIdle] else [])
        ++ (if stopStream = true then [Event.Engine EngineCall.StopStream] else [])
        ++ [Event.SetLooping false, Event.SetCutting false, Event.SetPaused false,
            Event.Engine (EngineCall.SetPaused false), Event.ClearMeters,
            Event.EnableDisableButtons, Event.SetStopping false] := by
  cases stopStream <;> cases hbusy : p.engine.busy <;>
    simp [Stop, hcan, hbusy, SetStopping, SetLooping, SetCutting, SetPaused, EngineSetPaused,
      ClearCutPreviewTracks, StopStream, Project.log]

/-- Witness of C5: stopping a looped play that this project owns. -/
theorem stop_postcondition_witness :
    CanStopAudioStream playingProject = true ∧
    ((Stop playingProject true).looping = false ∧
    (Stop playingProject true).cutting = false ∧
    (Stop playingProject true).paused = false ∧
    (Stop playingProject true).stopping = false ∧
    (Stop playingProject true).cutPreviewTracks = none ∧
    (Stop playingProject true).engine.paused = false ∧
    (Stop playingProject true).trace =
      playingProject.trace ++ [Event.StopScrubbing]
        ++ (if true = true ∧ playingProject.engine.busy = true
            then [Event.SetStopping true, Event.ProcessIdle] else [])
        ++ (if true = true then [Event.Engine EngineCall.StopStream] else [])
        ++ [Event.SetLooping false, Event.SetCutting false, Event.SetPaused false,
            Event.Engine (EngineCall.SetPaused false), Event.ClearMeters,
            Event.EnableDisableButtons, Event.SetStopping false]) :=
  ⟨by decide, stop_postcondition playingProject true (by decide)⟩

/-! ## Claims on `PlayPlayRegion` -/

/-- The fields `markMode` and `SetLastPlayMode` leave alone. -/
theorem markMode_fields (p : Project) (mode : PlayMode) :
    (markMode p mode).engine = p.engine ∧ (markMode p mode).tracks = p.tracks ∧
    (markMode p mode).selectedRegion = p.selectedRegion ∧
    (markMode p mode).audioIOToken = p.audioIOToken ∧
    (markMode p mode).prefs = p.prefs ∧
    (markMode p mode).looping = decide (mode = PlayMode.loopedPlay) ∧
    (markMode p mode).cutting = decide (mode = PlayMode.cutPreviewPlay) ∧
    (markMode p mode).trace = p.trace ++
      [Event.SetLooping (decide (mode = PlayMode.loopedPlay)),
       Event.SetCutting (decide (mode = PlayMode.cutPreviewPlay))] := by
  simp [markMode, SetCutting, SetLooping]

/-- The stream start never answers 0, leaves Looping and Cutting alone, and
keeps the stored token unless a session begins. -/
theorem startPlayback_frame (p : Project) (options : AudioIOStartStreamOptions)
    (cutpreview backwards useMidi : Bool) (t0 t1 : Time) :
    (startPlayback p options cutpreview backwards useMidi t0 t1).1 ≠ 0 ∧
    (startPlayback p options cutpreview backwards useMidi t0 t1).2.looping = p.looping ∧
    (startPlayback p options cutpreview backwards useMidi t0 t1).2.cutting = p.cutting ∧
    (0 ≤ p.engine.startResult →
      (startPlayback p options cutpreview backwards useMidi t0 t1).1 = -1 →
      (startPlayback p options cutpreview backwards useMidi t0 t1).2.audioIOToken
        = p.audioIOToken) := by
  unfold startPlayback
  cases cutpreview
  · by_cases htok : p.engine.startResult = 0
    · simp [StartStream, htok, Project.log]
    · simp [StartStream, htok, Project.log, SetAudioIOToken]
      intro h0 h1
      omega
  · cases hsel : (SelectedPlayable (allTracks p.tracks)).isEmpty
    · by_cases htok : p.engine.startResult = 0
      · simp [SetupCutPreviewTracks, ClearCutPreviewTracks, hsel, StartStream, htok, Project.log]
      · simp [SetupCutPreviewTracks, ClearCutPreviewTracks, hsel, StartStream, htok, Project.log,
          SetAudioIOToken]
        intro h0 h1
        omega
    · simp [SetupCutPreviewTracks, ClearCutPreviewTracks, hsel]

/-- The ways `PlayPlayRegion` ends once the guard is passed: with -1 and the
mode flags written, with -1 and the play mode stored as well, or through the
stream start. -/
theorem playPlayRegion_ends (p : Project) (selectedRegion : SelectedRegion)
    (options : AudioIOStartStreamOptions) (mode : PlayMode) (backwards playWhiteSpace : Bool)
    (hcan : CanStopAudioStream p = true) :
    PlayPlayRegion p selectedRegion options mode backwards playWhiteSpace
      = (-1, markMode p mode) ∨
    PlayPlayRegion p selectedRegion options mode backwards playWhiteSpace
      = (-1, SetLastPlayMode (markMode p mode) mode) ∨
    (¬ (mode = PlayMode.cutPreviewPlay ∧ selectedRegion.t0 = selectedRegion.t1) ∧
     ∃ t0 t1, PlayPlayRegion p selectedRegion options mode backwards playWhiteSpace
      = startPlayback (SetLastPlayMode (markMode p mode) mode) options
          (decide (mode = PlayMode.cutPreviewPlay)) backwards (!options.pScrubbingOptions)
          t0 t1) := by
  unfold PlayPlayRegion
  simp only [hcan, Bool.not_true, Bool.false_eq_true, if_false]
  by_cases h1 : (markMode p mode).engine.busy = true
  · left
    rw [if_pos h1]
  · rw [if_neg h1]
    by_cases h2 : (decide (mode = PlayMode.cutPreviewPlay) &&
        decide ((if backwards = true then selectedRegion.t1 else selectedRegion.t0)
          = (if backwards = true then selectedRegion.t0 else selectedRegion.t1))) = true
    · left
      rw [if_pos h2]
    · rw [if_neg h2]
      right
      by_cases h3 : (!hasAudio (SetLastPlayMode (markMode p mode) mode).tracks
          (!options.pScrubbingOptions)) = true
      · left
        rw [if_pos h3]
      · rw [if_neg h3]
        generalize resolveRegion _ _ _ _ _ _ _ = r
        by_cases h4 : r.2 ≠ r.1
        · right
          refine ⟨?_, r.1, r.2, by rw [if_pos h4]⟩
          rintro ⟨hm, ht⟩
          apply h2
          cases backwards <;> simp [hm, ht]
        · left
          rw [if_neg h4]

/-- The stream start on the live tracks. -/
theorem startPlayback_live (q : Project) (options : AudioIOStartStreamOptions)
    (backwards useMidi : Bool) (t0 t1 : Time) :
    startPlayback q options false backwards useMidi t0 t1 =
      if q.engine.startResult ≠ 0 then
        (q.engine.startResult,
          SetAudioIOToken (q.log (Event.Engine (EngineCall.StartStream
            (GetAllPlaybackTracks (allTracks q.tracks) false useMidi) t0 t1 options)))
            q.engine.startResult)
      else
        (-1, (q.log (Event.Engine (EngineCall.StartStream
            (GetAllPlaybackTracks (allTracks q.tracks) false useMidi) t0 t1 options))).log
            (Event.ErrorDialog true)) := by
  by_cases h : q.engine.startResult = 0 <;> simp [startPlayback, StartStream, h]

/-- In the modes normalPlay and loopedPlay, once the guard is passed with an
idle engine and audio present, `PlayPlayRegion` hands the resolved bounds to
the stream start, or stops when they coincide. -/
theorem playPlayRegion_resolved (p : Project) (selectedRegion : SelectedRegion)
    (options : AudioIOStartStreamOptions) (mode : PlayMode) (backwards playWhiteSpace : Bool)
    (hmode : mode ≠ PlayMode.cutPreviewPlay) (hcan : CanStopAudioStream p = true)
    (hidle : p.engine.busy = false)
    (haudio : hasAudio p.tracks (!options.pScrubbingOptions) = true)
    (r : Time × Time)
    (hr : r = resolveRegion p.tracks p.selectedRegion
      (if backwards then selectedRegion.t1 else selectedRegion.t0)
      (if backwards then selectedRegion.t0 else selectedRegion.t1)
      options.playLooped backwards
      (if playWhiteSpace then (if backwards then selectedRegion.t0 else selectedRegion.t1)
        else GetEndTime p.tracks)) :
    PlayPlayRegion p selectedRegion options mode backwards playWhiteSpace =
      if r.2 ≠ r.1 then
        startPlayback (SetLastPlayMode (markMode p mode) mode) options false backwards
          (!options.pScrubbingOptions) r.1 r.2
      else
        (-1, SetLastPlayMode (markMode p mode) mode) := by
  have hf := markMode_fields p mode
  have htracks : (SetLastPlayMode (markMode p mode) mode).tracks = p.tracks := by
    simp [SetLastPlayMode, hf.2.1]
  have hsel : (SetLastPlayMode (markMode p mode) mode).selectedRegion = p.selectedRegion := by
    simp [SetLastPlayMode, hf.2.2.1]
  unfold PlayPlayRegion
  simp only [hcan, Bool.not_true, Bool.false_eq_true, if_false, hf.1, hidle, htracks, hsel,
    haudio, decide_eq_false hmode, Bool.false_and, ← hr]

/-- C6, counterexample: Looping and Cutting are false, the engine answers
`StartStream` with 0 in a loopedPlay request; the call returns -1 and Looping
is left set. -/
theorem failed_looped_start_leaves_looping_set :
    failingProject.looping = false ∧ failingProject.cutting = false ∧
    failingProject.engine.startResult = 0 ∧
    (PlayPlayRegion failingProject { t0 := 1, t1 := 3 } {} PlayMode.loopedPlay false false).1
      = -1 ∧
    (PlayPlayRegion failingProject { t0 := 1, t1 := 3 } {} PlayMode.loopedPlay false
      false).2.looping = true ∧
    (PlayPlayRegion failingProject { t0 := 1, t1 := 3 } {} PlayMode.loopedPlay false
      false).2.trace =
      [Event.SetLooping true, Event.SetCutting false,
        Event.SetLastPlayMode PlayMode.loopedPlay,
        Event.Engine (EngineCall.StartStream
          { playbackTracks := [{ id := 1, startTime := 0, endTime := 10 }] } 1 3 {}),
        Event.ErrorDialog true] := by
  decide

/-- C6, amended: for a call made while Looping and Cutting are false, with an
engine whose tokens are not negative, the return value is never 0 and a call
that returns -1 leaves the stored token unchanged. After the call Looping
holds exactly when the guard was passed and the mode is loopedPlay, Cutting
exactly when the guard was passed and the mode is cutPreviewPlay; so both are
still false when the guard refused the call or the mode is normalPlay. -/
theorem failed_start_token_and_flags (p : Project) (selectedRegion : SelectedRegion)
    (options : AudioIOStartStreamOptions) (mode : PlayMode) (backwards playWhiteSpace : Bool)
    (hl : p.looping = false) (hc : p.cutting = false) (htok : 0 ≤ p.engine.startResult) :
    (PlayPlayRegion p selectedRegion options mode backwards playWhiteSpace).1 ≠ 0 ∧
    ((PlayPlayRegion p selectedRegion options mode backwards playWhiteSpace).1 = -1 →
      (PlayPlayRegion p selectedRegion options mode backwards playWhiteSpace).2.audioIOToken
        = p.audioIOToken) ∧
    (PlayPlayRegion p selectedRegion options mode backwards playWhiteSpace).2.looping
      = (CanStopAudioStream p && decide (mode = PlayMode.loopedPlay)) ∧
    (PlayPlayRegion p selectedRegion options mode backwards playWhiteSpace).2.cutting
      = (CanStopAudioStream p && decide (mode = PlayMode.cutPreviewPlay)) ∧
    (mode = PlayMode.normalPlay ∨ CanStopAudioStream p = false →
      (PlayPlayRegion p selectedRegion options mode backwards playWhiteSpace).2.looping = false ∧
      (PlayPlayRegion p selectedRegion options mode backwards playWhiteSpace).2.cutting
        = false) := by
  have core :
      (PlayPlayRegion p selectedRegion options mode backwards playWhiteSpace).1 ≠ 0 ∧
      ((PlayPlayRegion p selectedRegion options mode backwards playWhiteSpace).1 = -1 →
        (PlayPlayRegion p selectedRegion options mode backwards playWhiteSpace).2.audioIOToken
          = p.audioIOToken) ∧
      (PlayPlayRegion p selectedRegion options mode backwards playWhiteSpace).2.looping
        = (CanStopAudioStream p && decide (mode = PlayMode.loopedPlay)) ∧
      (PlayPlayRegion p selectedRegion options mode backwards playWhiteSpace).2.cutting
        = (CanStopAudioStream p && decide (mode = PlayMode.cutPreviewPlay)) := by
    cases hcan : CanStopAudioStream p
    · have : PlayPlayRegion p selectedRegion options mode backwards playWhiteSpace = (-1, p) := by
        simp [PlayPlayRegion, hcan]
      simp [this, hl, hc]
    · obtain ⟨heng, _, _, htoken, _, hloop, hcut, _⟩ := markMode_fields p mode
      rcases playPlayRegion_ends p selectedRegion options mode backwards playWhiteSpace hcan
        with h | h | ⟨_, t0, t1, h⟩
      · rw [h]
        simp [htoken, hloop, hcut]
      · rw [h]
        simp [SetLastPlayMode, htoken, hloop, hcut]
      · rw [h]
        have hs := startPlayback_frame (SetLastPlayMode (markMode p mode) mode) options
          (decide (mode = PlayMode.cutPreviewPlay)) backwards (!options.pScrubbingOptions) t0 t1
        refine ⟨hs.1, ?_, ?_, ?_⟩
        · intro hneg
          rw [hs.2.2.2 (by simpa [SetLastPlayMode, heng] using htok) hneg]
          simp [SetLastPlayMode, htoken]
        · rw [hs.2.1]
          simp [SetLastPlayMode, hloop]
        · rw [hs.2.2.1]
          simp [SetLastPlayMode, hcut]
  refine ⟨core.1, core.2.1, core.2.2.1, core.2.2.2, ?_⟩
  rintro (h | h)
  · rw [core.2.2.1, core.2.2.2]
    subst h
    simp
  · rw [core.2.2.1, core.2.2.2]
    simp [h]

/-- Witness of C6 (amended): the failing looped start. -/
theorem failed_start_token_and_flags_witness :
    (failingProject.looping = false ∧ failingProject.cutting = false ∧
      0 ≤ failingProject.engine.startResult) ∧
    ((PlayPlayRegion failingProject { t0 := 1, t1 := 3 } {} PlayMode.loopedPlay false false).1
      ≠ 0 ∧
    ((PlayPlayRegion failingProject { t0 := 1, t1 := 3 } {} PlayMode.loopedPlay false
        false).1 = -1 →
      (PlayPlayRegion failingProject { t0 := 1, t1 := 3 } {} PlayMode.loopedPlay false
        false).2.audioIOToken = failingProject.audioIOToken) ∧
    (PlayPlayRegion failingProject { t0 := 1, t1 := 3 } {} PlayMode.loopedPlay false
        false).2.looping
      = (CanStopAudioStream failingProject && decide (PlayMode.loopedPlay = PlayMode.loopedPlay)) ∧
    (PlayPlayRegion failingProject { t0 := 1, t1 := 3 } {} PlayMode.loopedPlay false
        false).2.cutting
      = (CanStopAudioStream failingProject &&
          decide (PlayMode.loopedPlay = PlayMode.cutPreviewPlay)) ∧
    (PlayMode.loopedPlay = PlayMode.normalPlay ∨ CanStopAudioStream failingProject = false →
      (PlayPlayRegion failingProject { t0 := 1, t1 := 3 } {} PlayMode.loopedPlay false
        false).2.looping = false ∧
      (PlayPlayRegion failingProject { t0 := 1, t1 := 3 } {} PlayMode.loopedPlay false
        false).2.cutting = false)) :=
  ⟨by decide,
    failed_start_token_and_flags failingProject { t0 := 1, t1 := 3 } {} PlayMode.loopedPlay
      false false (by decide) (by decide) (by decide)⟩

/-- The resolved bounds of a point request that does not loop. -/
theorem resolveRegion_point (tracks : List ChannelGroup) (selection : SelectedRegion)
    (t : Time) (backwards : Bool) (latestEnd : Time) :
    resolveRegion tracks selection t t false backwards latestEnd =
      ((if t < 0 then GetStartTime tracks
        else if t > GetEndTime tracks then GetEndTime tracks else t),
       GetEndTime tracks) := by
  unfold resolveRegion
  by_cases h1 : t < 0
  · simp [h1]
  · by_cases h2 : t > GetEndTime tracks <;> simp [h1, h2]

/-- C7, counterexample: the only track spans 5 to 10 and the request is the
point 2, not looped, in normalPlay; the stream is started from 2, below the
start time 5 of the track list. -/
theorem point_play_starts_below_track_start :
    GetStartTime lateProject.tracks = 5 ∧ GetEndTime lateProject.tracks = 10 ∧
    resolveRegion lateProject.tracks lateProject.selectedRegion 2 2 false false
      (GetEndTime lateProject.tracks) = (2, 10) ∧
    ¬ (GetStartTime lateProject.tracks ≤
        (resolveRegion lateProject.tracks lateProject.selectedRegion 2 2 false false
          (GetEndTime lateProject.tracks)).1) ∧
    (PlayPlayRegion lateProject { t0 := 2, t1 := 2 } {} PlayMode.normalPlay false false).2.trace =
      [Event.SetLooping false, Event.SetCutting false,
        Event.SetLastPlayMode PlayMode.normalPlay,
        Event.Engine (EngineCall.StartStream
          { playbackTracks := [{ id := 1, startTime := 5, endTime := 10 }] } 2 10 {}),
        Event.SetAudioIOToken 1] := by
  decide

/-- C7, amended: for a point request (t, t) that does not loop, in normalPlay,
the resolved end is the end time of the track list and the resolved start is
the start time of the track list when t < 0, its end time when t > end, and t
otherwise. With start ≤ end the resolved start lies between min(start, 0) and
end, and at or above start when start ≤ 0. Once the guard is passed with an
idle engine and audio present, these are the bounds handed to the stream start,
which is skipped when they coincide. -/
theorem point_play_resolution (p : Project) (t : Time) (options : AudioIOStartStreamOptions)
    (backwards playWhiteSpace : Bool) (latestEnd : Time)
    (hloop : options.playLooped = false) (hcan : CanStopAudioStream p = true)
    (hidle : p.engine.busy = false)
    (haudio : hasAudio p.tracks (!options.pScrubbingOptions) = true) :
    ∃ t0r : Time,
      t0r = (if t < 0 then GetStartTime p.tracks
             else if t > GetEndTime p.tracks then GetEndTime p.tracks else t) ∧
      resolveRegion p.tracks p.selectedRegion t t false backwards latestEnd
        = (t0r, GetEndTime p.tracks) ∧
      (GetStartTime p.tracks ≤ GetEndTime p.tracks →
        min (GetStartTime p.tracks) 0 ≤ t0r ∧ t0r ≤ GetEndTime p.tracks ∧
        (GetStartTime p.tracks ≤ 0 → GetStartTime p.tracks ≤ t0r)) ∧
      PlayPlayRegion p { t0 := t, t1 := t } options PlayMode.normalPlay backwards playWhiteSpace =
        if GetEndTime p.tracks ≠ t0r then
          startPlayback (SetLastPlayMode (markMode p PlayMode.normalPlay) PlayMode.normalPlay)
            options false backwards (!options.pScrubbingOptions) t0r (GetEndTime p.tracks)
        else
          (-1, SetLastPlayMode (markMode p PlayMode.normalPlay) PlayMode.normalPlay) := by
  refine ⟨_, rfl, resolveRegion_point _ _ _ _ _, ?_, ?_⟩
  · intro hse
    by_cases h1 : t < 0
    · simp only [h1, if_true]
      exact ⟨min_le_left _ _, hse, fun _ => le_refl _⟩
    · by_cases h2 : t > GetEndTime p.tracks
      · simp only [h1, h2, if_true, if_false]
        exact ⟨le_trans (min_le_left _ _) hse, le_refl _, fun _ => hse⟩
      · simp only [h1, h2, if_false]
        have h1' : 0 ≤ t := not_lt.mp h1
        exact ⟨le_trans (min_le_right _ _) h1', not_lt.mp h2, fun h0 => le_trans h0 h1'⟩
  · have h := playPlayRegion_resolved p { t0 := t, t1 := t } options PlayMode.normalPlay backwards
      playWhiteSpace (by decide) hcan hidle haudio _ rfl
    rw [h]
    simp only [ite_self, hloop, resolveRegion_point]

/-- Witness of C7 (amended): the point 2 before the only track of
`lateProject`. -/
theorem point_play_resolution_witness :
    (({} : AudioIOStartStreamOptions).playLooped = false ∧
      CanStopAudioStream lateProject = true ∧ lateProject.engine.busy = false ∧
      hasAudio lateProject.tracks (!({} : AudioIOStartStreamOptions).pScrubbingOptions) = true) ∧
    ∃ t0r : Time,
      t0r = (if (2 : Time) < 0 then GetStartTime lateProject.tracks
             else if (2 : Time) > GetEndTime lateProject.tracks then GetEndTime lateProject.tracks
             else 2) ∧
      resolveRegion lateProject.tracks lateProject.selectedRegion 2 2 false false 10
        = (t0r, GetEndTime lateProject.tracks) ∧
      (GetStartTime lateProject.tracks ≤ GetEndTime lateProject.tracks →
        min (GetStartTime lateProject.tracks) 0 ≤ t0r ∧ t0r ≤ GetEndTime lateProject.tracks ∧
        (GetStartTime lateProject.tracks ≤ 0 → GetStartTime lateProject.tracks ≤ t0r)) ∧
      PlayPlayRegion lateProject { t0 := 2, t1 := 2 } {} PlayMode.normalPlay false false =
        if GetEndTime lateProject.tracks ≠ t0r then
          startPlayback
            (SetLastPlayMode (markMode lateProject PlayMode.normalPlay) PlayMode.normalPlay)
            {} false false (!({} : AudioIOStartStreamOptions).pScrubbingOptions) t0r
            (GetEndTime lateProject.tracks)
        else
          (-1, SetLastPlayMode (markMode lateProject PlayMode.normalPlay) PlayMode.normalPlay) :=
  ⟨by decide,
    point_play_resolution lateProject 2 {} false false 10 (by decide) (by decide) (by decide)
      (by decide)⟩

/-- The resolved bounds of a looped point request: the end is the end time of
the track list in either case. -/
theorem resolveRegion_looped_point (tracks : List ChannelGroup) (selection : SelectedRegion)
    (t : Time) (backwards : Bool) (latestEnd : Time) :
    resolveRegion tracks selection t t true backwards latestEnd =
      ((if selection.t0 < t ∧ t < selection.t1 then selection.t0 else GetStartTime tracks),
       GetEndTime tracks) := by
  unfold resolveRegion
  by_cases h : selection.t0 < t ∧ t < selection.t1
  · simp [h]
  · have h2 : ¬ (t > selection.t0 ∧ t < selection.t1) := h
    simp only [if_true, h, h2, if_false]

/-- C8: the code at the failing input. The selection is (1, 3), the track
list spans 0 to 10 and the looped request is the point 2 inside the selection:
the interval handed to the engine is (1, 10), not the selection (1, 3). For
the point 5 outside the selection it is (0, 10), the extent of the tracks. -/
theorem looped_point_play_runs_to_track_end :
    loopProject.selectedRegion = { t0 := 1, t1 := 3 } ∧
    GetStartTime loopProject.tracks = 0 ∧ GetEndTime loopProject.tracks = 10 ∧
    resolveRegion loopProject.tracks loopProject.selectedRegion 2 2 true false
      (GetEndTime loopProject.tracks) = (1, 10) ∧
    (PlayPlayRegion loopProject { t0 := 2, t1 := 2 } { playLooped := true } PlayMode.loopedPlay
      false false).2.trace =
      [Event.SetLooping true, Event.SetCutting false,
        Event.SetLastPlayMode PlayMode.loopedPlay,
        Event.Engine (EngineCall.StartStream
          { playbackTracks := [{ id := 1, startTime := 0, endTime := 10 }] } 1 10
          { playLooped := true }),
        Event.SetAudioIOToken 1] ∧
    resolveRegion loopProject.tracks loopProject.selectedRegion 5 5 true false
      (GetEndTime loopProject.tracks) = (0, 10) := by
  decide

/-- The resolved bounds of a request (a, b) with a < b: both bounds are
clamped into [0, latestEnd], in the order of play. -/
theorem resolveRegion_clamps (tracks : List ChannelGroup) (selection : SelectedRegion)
    (a b : Time) (hab : a < b) (looped backwards : Bool) (latestEnd : Time) :
    resolveRegion tracks selection (if backwards then b else a) (if backwards then a else b)
        looped backwards latestEnd =
      if backwards then (max 0 (min b latestEnd), max 0 (min a latestEnd))
      else (max 0 (min a latestEnd), max 0 (min b latestEnd)) := by
  unfold resolveRegion
  cases backwards
  · simp [ne_of_gt hab]
  · simp [ne_of_lt hab]

/-- C9: the code at the failing input. The region is (8, 13) and the tracks
end at 10. Forward with `playWhiteSpace` the stream runs from 8 to 13,
unclamped. Backwards with `playWhiteSpace` the value of `latestEnd` is taken
after the swap and is 8: both bounds become 8, no stream is started and the
call returns -1. Backwards without `playWhiteSpace` the stream runs from 10
to 8. -/
theorem backwards_white_space_play_starts_nothing :
    GetEndTime loopProject.tracks = 10 ∧
    (PlayPlayRegion loopProject { t0 := 8, t1 := 13 } {} PlayMode.normalPlay false true).2.trace =
      [Event.SetLooping false, Event.SetCutting false,
        Event.SetLastPlayMode PlayMode.normalPlay,
        Event.Engine (EngineCall.StartStream
          { playbackTracks := [{ id := 1, startTime := 0, endTime := 10 }] } 8 13 {}),
        Event.SetAudioIOToken 1] ∧
    resolveRegion loopProject.tracks loopProject.selectedRegion 13 8 false true 8 = (8, 8) ∧
    (PlayPlayRegion loopProject { t0 := 8, t1 := 13 } {} PlayMode.normalPlay true true).1 = -1 ∧
    (PlayPlayRegion loopProject { t0 := 8, t1 := 13 } {} PlayMode.normalPlay true true).2.trace =
      [Event.SetLooping false, Event.SetCutting false,
        Event.SetLastPlayMode PlayMode.normalPlay] ∧
    (PlayPlayRegion loopProject { t0 := 8, t1 := 13 } {} PlayMode.normalPlay true false).2.trace =
      [Event.SetLooping false, Event.SetCutting false,
        Event.SetLastPlayMode PlayMode.normalPlay,
        Event.Engine (EngineCall.StartStream
          { playbackTracks := [{ id := 1, startTime := 0, endTime := 10 }] } 10 8 {}),
        Event.SetAudioIOToken 1] := by
  decide

/-- With no selected playable track the cut-preview stream start makes no
preview set, calls nothing and answers -1. -/
theorem startPlayback_no_selection (q : Project) (options : AudioIOStartStreamOptions)
    (backwards useMidi : Bool) (t0 t1 : Time)
    (hsel : SelectedPlayable (allTracks q.tracks) = []) :
    (startPlayback q options true backwards useMidi t0 t1).1 = -1 ∧
    (startPlayback q options true backwards useMidi t0 t1).2.trace = q.trace ∧
    (startPlayback q options true backwards useMidi t0 t1).2.cutPreviewTracks = none := by
  simp [startPlayback, SetupCutPreviewTracks, ClearCutPreviewTracks, hsel]

/-- C10: a cutPreviewPlay request whose region has zero length, or made when
no playable track is selected, returns -1 and adds no `StartStream` call to the
trace. With no playable track selected `SetupCutPreviewTracks` leaves the
cut-preview set absent, whatever it held before. -/
theorem cut_preview_refusal (p : Project) (selectedRegion : SelectedRegion)
    (options : AudioIOStartStreamOptions) (backwards playWhiteSpace : Bool)
    (h : selectedRegion.t0 = selectedRegion.t1 ∨ SelectedPlayable (allTracks p.tracks) = []) :
    (PlayPlayRegion p selectedRegion options PlayMode.cutPreviewPlay backwards playWhiteSpace).1
      = -1 ∧
    (∃ extra,
      (PlayPlayRegion p selectedRegion options PlayMode.cutPreviewPlay backwards
        playWhiteSpace).2.trace = p.trace ++ extra ∧
      ∀ e ∈ extra, e.isStartStream = false) ∧
    (SelectedPlayable (allTracks p.tracks) = [] →
      ∀ playStart cutStart cutEnd playEnd,
        (SetupCutPreviewTracks p playStart cutStart cutEnd playEnd).cutPreviewTracks = none) := by
  refine ⟨?_, ?_, ?_⟩
  · cases hcan : CanStopAudioStream p
    · simp [PlayPlayRegion, hcan]
    · rcases playPlayRegion_ends p selectedRegion options PlayMode.cutPreviewPlay backwards
        playWhiteSpace hcan with h1 | h1 | ⟨hne, t0, t1, h1⟩
      · rw [h1]
      · rw [h1]
      · rcases h with h | h
        · exact absurd ⟨rfl, h⟩ hne
        · rw [h1]
          exact (startPlayback_no_selection _ options backwards _ t0 t1
            (by simpa [SetLastPlayMode, (markMode_fields p PlayMode.cutPreviewPlay).2.1]
              using h)).1
  · cases hcan : CanStopAudioStream p
    · exact ⟨[], by simp [PlayPlayRegion, hcan], by simp⟩
    · obtain ⟨_, htr, _, _, _, _, _, htrace⟩ := markMode_fields p PlayMode.cutPreviewPlay
      rcases playPlayRegion_ends p selectedRegion options PlayMode.cutPreviewPlay backwards
        playWhiteSpace hcan with h1 | h1 | ⟨hne, t0, t1, h1⟩
      · refine ⟨_, by rw [h1, htrace], ?_⟩
        simp [Event.isStartStream]
      · refine ⟨[Event.SetLooping false, Event.SetCutting true,
          Event.SetLastPlayMode PlayMode.cutPreviewPlay], ?_, ?_⟩
        · rw [h1]
          simp [SetLastPlayMode, htrace]
        · simp [Event.isStartStream]
      · rcases h with h | h
        · exact absurd ⟨rfl, h⟩ hne
        · refine ⟨[Event.SetLooping false, Event.SetCutting true,
            Event.SetLastPlayMode PlayMode.cutPreviewPlay], ?_, ?_⟩
          · have hdec : decide (PlayMode.cutPreviewPlay = PlayMode.cutPreviewPlay) = true := by
              decide
            rw [hdec] at h1
            rw [h1, (startPlayback_no_selection _ options backwards _ t0 t1
              (by simpa [SetLastPlayMode, htr] using h)).2.1]
            simp [SetLastPlayMode, htrace]
          · simp [Event.isStartStream]
  · intro hsel playStart cutStart cutEnd playEnd
    simp [SetupCutPreviewTracks, ClearCutPreviewTracks, hsel]

/-- Witness of C10: no track is selected and a stale cut-preview set is left
from an earlier session. -/
theorem cut_preview_refusal_witness :
    (({ t0 := 1, t1 := 3 } : SelectedRegion).t0 = ({ t0 := 1, t1 := 3 } : SelectedRegion).t1 ∨
      SelectedPlayable (allTracks staleCutProject.tracks) = []) ∧
    ((PlayPlayRegion staleCutProject { t0 := 1, t1 := 3 } {} PlayMode.cutPreviewPlay false false).1
      = -1 ∧
    (∃ extra,
      (PlayPlayRegion staleCutProject { t0 := 1, t1 := 3 } {} PlayMode.cutPreviewPlay false
        false).2.trace = staleCutProject.trace ++ extra ∧
      ∀ e ∈ extra, e.isStartStream = false) ∧
    (SelectedPlayable (allTracks staleCutProject.tracks) = [] →
      ∀ playStart cutStart cutEnd playEnd,
        (SetupCutPreviewTracks staleCutProject playStart cutStart cutEnd playEnd).cutPreviewTracks
          = none)) :=
  ⟨Or.inr (by decide),
    cut_preview_refusal staleCutProject { t0 := 1, t1 := 3 } {} false false (Or.inr (by decide))⟩

/-! ## Claims on recording -/

/-- The append loop of `DoRecord` leaves the live tracks, the engine and the
trace alone. -/
theorem appendLoop_frame (t0 : Time) (l : List Track) (st : Project × TransportTracks) :
    (l.foldl (appendStep t0) st).1.tracks = st.1.tracks ∧
    (l.foldl (appendStep t0) st).1.engine = st.1.engine ∧
    (l.foldl (appendStep t0) st).1.trace = st.1.trace := by
  induction l generalizing st with
  | nil => simp
  | cons wt rest ih =>
    rw [List.foldl_cons]
    obtain ⟨h1, h2, h3⟩ := ih (appendStep t0 st wt)
    rw [h1, h2, h3]
    simp [appendStep, RegisterPendingChangedTrack]

/-- The loop that makes new tracks leaves the live tracks and the engine
alone. -/
theorem newTrackLoop_frame (numTracks : Nat) (recordingChannels : Int) (l : List Nat)
    (st : NewTrackLoop) :
    (l.foldl (newTrackStep numTracks recordingChannels) st).project.tracks = st.project.tracks ∧
    (l.foldl (newTrackStep numTracks recordingChannels) st).project.engine
      = st.project.engine := by
  induction l generalizing st with
  | nil => simp
  | cons c rest ih =>
    rw [List.foldl_cons]
    obtain ⟨h1, h2⟩ := ih (newTrackStep numTracks recordingChannels st c)
    rw [h1, h2]
    unfold newTrackStep
    constructor <;> (simp only [RegisterPendingNewTrack, Project.log]; split <;> rfl)

/-- The preparation of a recording leaves the live tracks and the engine
alone. -/
theorem prepareRecording_frame (p1 : Project) (tracks : TransportTracks) (t0 t1 : Time) :
    (prepareRecording p1 tracks t0 t1).project.tracks = p1.tracks ∧
    (prepareRecording p1 tracks t0 t1).project.engine = p1.engine := by
  have key : ∀ (q : Project) (tt : TransportTracks),
      (recordToNewTracks q tt t0 t1).project.tracks = q.tracks ∧
      (recordToNewTracks q tt t0 t1).project.engine = q.engine := by
    intro q tt
    unfold recordToNewTracks
    have hloop := newTrackLoop_frame (LeadersWave q.tracks).length (max 1 q.prefs.recordChannels)
      (List.range (max 1 q.prefs.recordChannels).toNat)
      { project := q, transportTracks := tt, t0 := t0, t1 := t1 }
    simp only at hloop ⊢
    split
    · exact hloop
    · exact hloop
  have happ : (appendPending p1 tracks t0).1.tracks = p1.tracks ∧
      (appendPending p1 tracks t0).1.engine = p1.engine := by
    unfold appendPending
    simp only
    split
    · exact ⟨(appendLoop_frame _ _ _).1, (appendLoop_frame _ _ _).2.1⟩
    · exact ⟨rfl, rfl⟩
  unfold prepareRecording
  simp only
  split
  · obtain ⟨h1, h2⟩ := key (appendPending p1 tracks t0).1 (appendPending p1 tracks t0).2
    rw [h1, h2]
    exact happ
  · exact happ

/-- Staged edits leave the live track list alone. -/
theorem pendingEdits_frame (edits : List PendingEdit) (p : Project) :
    (edits.foldl applyPendingEdit p).tracks = p.tracks := by
  induction edits generalizing p with
  | nil => rfl
  | cons e rest ih =>
    rw [List.foldl_cons, ih]
    cases e <;> rfl

/-- C3: when the menu allows the action, the engine is idle and `StartStream`
answers 0, `DoRecord` calls `StartStream`, returns false, and afterwards the
staging area of pending replacements and additions is empty and the live track
list is the one before the call, whether capture tracks were given (append
path) or not (new-track path). `CancelRecording` after any sequence of staged
edits leaves the live track list unchanged and the staging area empty. -/
theorem failed_record_rolls_back (p : Project) (tracks : TransportTracks) (t0 t1 : Time)
    (altAppearance : Bool) (options : AudioIOStartStreamOptions)
    (hallowed : p.menuAllowed = true) (hidle : p.engine.busy = false)
    (hfail : p.engine.startResult = 0) :
    (DoRecord p tracks t0 t1 altAppearance options).1 = false ∧
    (DoRecord p tracks t0 t1 altAppearance options).2.pendingUpdates = [] ∧
    (DoRecord p tracks t0 t1 altAppearance options).2.pendingNew = [] ∧
    (DoRecord p tracks t0 t1 altAppearance options).2.tracks = p.tracks ∧
    (∃ tt a b, Event.Engine (EngineCall.StartStream tt a b options)
      ∈ (DoRecord p tracks t0 t1 altAppearance options).2.trace) ∧
    (∀ edits : List PendingEdit,
      (CancelRecording (edits.foldl applyPendingEdit p)).tracks = p.tracks ∧
      (CancelRecording (edits.foldl applyPendingEdit p)).pendingUpdates = [] ∧
      (CancelRecording (edits.foldl applyPendingEdit p)).pendingNew = []) := by
  obtain ⟨htr, heng⟩ := prepareRecording_frame (SetAppending p (!altAppearance)) tracks t0 t1
  have hzero : (prepareRecording (SetAppending p (!altAppearance)) tracks t0 t1).project.engine.startResult
      = 0 := by
    rw [heng]
    simpa [SetAppending] using hfail
  have hrun : DoRecord p tracks t0 t1 altAppearance options =
      (false, (CancelRecording (StartStream
        (prepareRecording (SetAppending p (!altAppearance)) tracks t0 t1).project
        (prepareRecording (SetAppending p (!altAppearance)) tracks t0 t1).transportTracks
        (prepareRecording (SetAppending p (!altAppearance)) tracks t0 t1).t0
        (prepareRecording (SetAppending p (!altAppearance)) tracks t0 t1).t1 options).2).log
        (Event.ErrorDialog false)) := by
    simp [DoRecord, hallowed, hidle, StartStream, hzero]
  rw [hrun]
  refine ⟨rfl, rfl, rfl, ?_, ?_, ?_⟩
  · simp only [Project.log, CancelRecording, ClearPendingTracks, StartStream]
    rw [htr]
    rfl
  · exact ⟨(prepareRecording (SetAppending p (!altAppearance)) tracks t0 t1).transportTracks,
      (prepareRecording (SetAppending p (!altAppearance)) tracks t0 t1).t0,
      (prepareRecording (SetAppending p (!altAppearance)) tracks t0 t1).t1,
      by simp [Project.log, CancelRecording, ClearPendingTracks, StartStream]⟩
  · intro edits
    exact ⟨pendingEdits_frame edits p, rfl, rfl⟩

/-- Witness of C3: an append recording into the track of `failingProject`,
whose engine refuses to start. -/
theorem failed_record_rolls_back_witness :
    (failingProject.menuAllowed = true ∧ failingProject.engine.busy = false ∧
      failingProject.engine.startResult = 0) ∧
    ((DoRecord failingProject { captureTracks := [{ id := 1, startTime := 0, endTime := 10 }] }
        12 DBL_MAX false {}).1 = false ∧
    (DoRecord failingProject { captureTracks := [{ id := 1, startTime := 0, endTime := 10 }] }
        12 DBL_MAX false {}).2.pendingUpdates = [] ∧
    (DoRecord failingProject { captureTracks := [{ id := 1, startTime := 0, endTime := 10 }] }
        12 DBL_MAX false {}).2.pendingNew = [] ∧
    (DoRecord failingProject { captureTracks := [{ id := 1, startTime := 0, endTime := 10 }] }
        12 DBL_MAX false {}).2.tracks = failingProject.tracks ∧
    (∃ tt a b, Event.Engine (EngineCall.StartStream tt a b {})
      ∈ (DoRecord failingProject
          { captureTracks := [{ id := 1, startTime := 0, endTime := 10 }] }
          12 DBL_MAX false {}).2.trace) ∧
    (∀ edits : List PendingEdit,
      (CancelRecording (edits.foldl applyPendingEdit failingProject)).tracks
        = failingProject.tracks ∧
      (CancelRecording (edits.foldl applyPendingEdit failingProject)).pendingUpdates = [] ∧
      (CancelRecording (edits.foldl applyPendingEdit failingProject)).pendingNew = [])) :=
  ⟨by decide,
    failed_record_rolls_back failingProject
      { captureTracks := [{ id := 1, startTime := 0, endTime := 10 }] } 12 DBL_MAX false {}
      (by decide) (by decide) (by decide)⟩

/-! ## Claims on the window bookkeeping and on relaxed mode -/

/-- A channel loop that runs to its end has pushed every channel. -/
theorem pushChannels_finished (n : Nat) (chs cands cands2 : List Track)
    (h : pushChannels n chs cands = PushResult.finished cands2) : cands2 = cands ++ chs := by
  induction chs generalizing cands with
  | nil =>
    simp only [pushChannels, PushResult.finished.injEq] at h
    simp [h]
  | cons ch rest ih =>
    rw [pushChannels] at h
    by_cases hfull : (cands ++ [ch]).length = n
    · rw [if_pos hfull] at h
      cases h
    · rw [if_neg hfull] at h
      rw [ih _ h]
      simp

/-- One round of the discard loop under the invariant: the read of
`channelCounts[0]` and both erasures are in bounds, and the invariant holds
again afterwards. -/
theorem discard_round_in_bounds (n nCh : Nat) (counts : List Nat) (cands : List Track)
    (hinv : Bookkeeping counts cands) (hfit : nCh ≤ n) (hover : nCh + cands.length > n) :
    ∃ nOld rest, counts = nOld :: rest ∧ 1 ≤ nOld ∧ nOld ≤ cands.length ∧
      Bookkeeping rest (cands.drop nOld) := by
  obtain ⟨hsum, hpos⟩ := hinv
  cases counts with
  | nil =>
    simp only [List.sum_nil] at hsum
    omega
  | cons nOld rest =>
    simp only [List.sum_cons] at hsum
    refine ⟨nOld, rest, rfl, hpos nOld (List.mem_cons_self _ _), by omega, ?_, ?_⟩
    · rw [List.length_drop]
      omega
    · exact fun c hc => hpos c (List.mem_cons_of_mem _ hc)

/-- The discard loop ends without an out-of-bounds access and keeps the
invariant. -/
theorem discardOldest_total (strict : Bool) (n nCh : Nat) (counts : List Nat)
    (cands : List Track) (hinv : Bookkeeping counts cands) (hfit : strict = true → nCh ≤ n) :
    ∃ counts1 cands1, discardOldest strict n nCh counts cands = some (counts1, cands1) ∧
      Bookkeeping counts1 cands1 ∧ (strict = true → nCh + cands1.length ≤ n) := by
  induction counts generalizing cands with
  | nil =>
    have hlen : cands.length = 0 := by
      have := hinv.1
      simp only [List.sum_nil] at this
      omega
    cases strict
    · exact ⟨[], cands, by simp [discardOldest], hinv, by simp⟩
    · have := hfit rfl
      refine ⟨[], cands, ?_, hinv, fun _ => by omega⟩
      simp [discardOldest, hlen]
      omega
  | cons nOld rest ih =>
    by_cases hover : strict = true ∧ nCh + cands.length > n
    · obtain ⟨hs, hov⟩ := hover
      obtain ⟨nOld1, rest1, heq, _, hle, hinv1⟩ :=
        discard_round_in_bounds n nCh (nOld :: rest) cands hinv (hfit hs) hov
      cases heq
      obtain ⟨c1, k1, hrun, hb, hf⟩ := ih (cands.drop nOld) hinv1
      refine ⟨c1, k1, ?_, hb, hf⟩
      rw [discardOldest]
      simp only [hs, Bool.true_and, decide_eq_true_eq, hov, if_true, hle]
      rw [← hs]
      exact hrun
    · refine ⟨nOld :: rest, cands, ?_, hinv, ?_⟩
      · rw [discardOldest]
        have : ¬ ((strict && decide (nCh + cands.length > n)) = true) := by
          simpa using hover
        rw [if_neg this]
      · intro hs
        have hno : ¬ (nCh + cands.length > n) := fun h => hover ⟨hs, h⟩
        omega

/-- A track pushed whole keeps the invariant. -/
theorem push_keeps_bookkeeping (n : Nat) (counts1 : List Nat) (cands1 cands2 : List Track)
    (g : ChannelGroup) (hinv : Bookkeeping counts1 cands1)
    (h : pushChannels n (Channels g) cands1 = PushResult.finished cands2) :
    Bookkeeping (counts1 ++ [(Channels g).length]) cands2 := by
  rw [pushChannels_finished n _ _ _ h]
  refine ⟨by simp [hinv.1], ?_⟩
  intro c hc
  rcases List.mem_append.mp hc with h1 | h1
  · exact hinv.2 c h1
  · simp only [List.mem_singleton] at h1
    rw [h1]
    exact length_Channels_pos g

/-- The scan returns from every state that satisfies the invariant. -/
theorem scanTracks_total (strict : Bool) (n : Nat) (rest : List ChannelGroup) :
    ∀ (counts : List Nat) (cands : List Track), Bookkeeping counts cands →
      ∃ r, scanTracks strict n rest counts cands = some r := by
  induction rest with
  | nil =>
    intro counts cands _
    rw [scanTracks]
    split <;> exact ⟨_, rfl⟩
  | cons g rest ih =>
    intro counts cands hinv
    rw [scanTracks]
    by_cases hbig : (strict && decide ((Channels g).length > n)) = true
    · rw [if_pos hbig]
      exact ih [] [] ⟨rfl, by simp⟩
    · rw [if_neg hbig]
      have hfit : strict = true → (Channels g).length ≤ n := by
        intro hs
        simp only [hs, Bool.true_and, decide_eq_true_eq] at hbig
        omega
      obtain ⟨c1, k1, hrun, hb, _⟩ :=
        discardOldest_total strict n (Channels g).length counts cands hinv hfit
      rw [hrun]
      simp only
      cases hp : pushChannels n (Channels g) k1 with
      | returned result => exact ⟨result, rfl⟩
      | finished k2 => exact ih _ _ (push_keeps_bookkeeping n c1 k1 k2 g hb hp)

/-- C19: the window bookkeeping of `ChooseExistingRecordingTracks` is safe.
The invariant (the entries of `channelCounts` add up to `candidates.size()`,
each entry at least 1) holds at the start and is kept by every round of the
discard loop and by every track pushed whole; whenever the body of the discard
loop runs, `channelCounts` is non-empty and its first entry is at most
`candidates.size()`; the discard loop ends, and the function returns for every
preference value, track list and `selectedOnly`. -/
theorem window_bookkeeping_safe :
    Bookkeeping [] [] ∧
    (∀ (n nCh : Nat) (counts : List Nat) (cands : List Track),
      Bookkeeping counts cands → nCh ≤ n → nCh + cands.length > n →
      ∃ nOld rest, counts = nOld :: rest ∧ 1 ≤ nOld ∧ nOld ≤ cands.length ∧
        Bookkeeping rest (cands.drop nOld)) ∧
    (∀ (strict : Bool) (n nCh : Nat) (counts : List Nat) (cands : List Track),
      Bookkeeping counts cands → (strict = true → nCh ≤ n) →
      ∃ counts1 cands1, discardOldest strict n nCh counts cands = some (counts1, cands1) ∧
        Bookkeeping counts1 cands1) ∧
    (∀ (n : Nat) (counts1 : List Nat) (cands1 cands2 : List Track) (g : ChannelGroup),
      Bookkeeping counts1 cands1 →
      pushChannels n (Channels g) cands1 = PushResult.finished cands2 →
      Bookkeeping (counts1 ++ [(Channels g).length]) cands2) ∧
    (∀ (recordChannels : Int) (groups : List ChannelGroup) (selectedOnly : Bool),
      ∃ r, ChooseExistingRecordingTracks recordChannels groups selectedOnly = some r) := by
  refine ⟨⟨rfl, by simp⟩, discard_round_in_bounds, ?_, push_keeps_bookkeeping, ?_⟩
  · intro strict n nCh counts cands hinv hfit
    obtain ⟨c1, k1, h1, h2, _⟩ := discardOldest_total strict n nCh counts cands hinv hfit
    exact ⟨c1, k1, h1, h2⟩
  · intro recordChannels groups selectedOnly
    unfold ChooseExistingRecordingTracks
    simp only
    split
    · exact ⟨[], rfl⟩
    · exact scanTracks_total _ _ _ [] [] ⟨rfl, by simp⟩

/-- Outside strict mode the discard loop does nothing. -/
theorem discardOldest_relaxed (n nCh : Nat) (counts : List Nat) (cands : List Track) :
    discardOldest false n nCh counts cands = some (counts, cands) := by
  cases counts <;> simp [discardOldest]

/-- The channel loop from fewer than `n` candidates: it returns the first `n`
channels as soon as there are that many. -/
theorem pushChannels_take (n : Nat) (chs cands : List Track) (hlt : cands.length < n) :
    pushChannels n chs cands =
      if n ≤ cands.length + chs.length then PushResult.returned ((cands ++ chs).take n)
      else PushResult.finished (cands ++ chs) := by
  induction chs generalizing cands with
  | nil =>
    have : ¬ n ≤ cands.length + ([] : List Track).length := by
      simp only [List.length_nil]
      omega
    rw [if_neg this]
    simp [pushChannels]
  | cons ch rest ih =>
    have hlen1 : (cands ++ [ch]).length = cands.length + 1 := by simp
    have hlen2 : (ch :: rest).length = rest.length + 1 := by simp
    rw [pushChannels]
    by_cases hfull : (cands ++ [ch]).length = n
    · rw [if_pos hfull]
      have hle : n ≤ cands.length + (ch :: rest).length := by omega
      rw [if_pos hle]
      have e : cands ++ ch :: rest = (cands ++ [ch]) ++ rest := by simp
      rw [e, @List.take_append_of_le_length _ (cands ++ [ch]) rest n (le_of_eq hfull.symm),
        List.take_of_length_le (le_of_eq hfull)]
    · rw [if_neg hfull]
      have hlt2 : (cands ++ [ch]).length < n := by omega
      rw [ih _ hlt2]
      have e1 : (cands ++ [ch]).length + rest.length = cands.length + (ch :: rest).length := by
        omega
      have e2 : cands ++ [ch] ++ rest = cands ++ ch :: rest := by simp
      rw [e1, e2]

/-- The relaxed scan returns the first `n` channels of what it was given and
what remains to be scanned. -/
theorem scanTracks_relaxed (n : Nat) (rest : List ChannelGroup) :
    ∀ (counts : List Nat) (cands : List Track), cands.length < n →
      scanTracks false n rest counts cands = some ((cands ++ allChannels rest).take n) := by
  induction rest with
  | nil =>
    intro counts cands hlt
    have htake : (cands ++ allChannels []).take n = cands := by
      simp only [allChannels, List.flatMap_nil, List.append_nil]
      exact List.take_of_length_le (le_of_lt hlt)
    rw [htake, scanTracks]
    cases cands <;> simp
  | cons g rest ih =>
    intro counts cands hlt
    rw [scanTracks]
    simp only [Bool.false_and, Bool.false_eq_true, if_false, discardOldest_relaxed]
    rw [pushChannels_take n _ _ hlt]
    have hall : cands ++ allChannels (g :: rest) = (cands ++ Channels g) ++ allChannels rest := by
      simp [allChannels]
    by_cases hle : n ≤ cands.length + (Channels g).length
    · rw [if_pos hle]
      simp only
      rw [hall, @List.take_append_of_le_length _ (cands ++ Channels g) (allChannels rest) n
        (by rw [List.length_append]; exact hle)]
    · rw [if_neg hle]
      simp only
      rw [ih _ _ (by rw [List.length_append]; omega), hall]

/-- C13, counterexample: three recording channels and two selected stereo
tracks. The result holds both channels of the first track and only the first
channel of the second: the second track is split. -/
theorem relaxed_choice_splits_a_track :
    Channels stereoSel2 = [{ id := 7, selected := true }, { id := 8, selected := true }] ∧
    ChooseExistingRecordingTracks 3 [stereoSel, stereoSel2] true =
      some [{ id := 4, selected := true }, { id := 5, selected := true },
        { id := 7, selected := true }] ∧
    ChooseExistingRecordingTracks 3 [stereoSel, stereoSel2] true ≠
      some (allChannels [stereoSel, stereoSel2]) ∧
    ChooseExistingRecordingTracks 3 [stereoSel, stereoSel2] true ≠
      some (allChannels [stereoSel]) := by
  decide

/-- C13, amended: in relaxed mode (more than two recording channels,
`selectedOnly`) the result is the first n channels, in list order, of the
selected wave tracks taken channel by channel, and all of them when there are
fewer than n. So it has exactly n channels when at least n are selected, the
last track taken being split when the tracks before it and its own channels
exceed n, and it is all the selected tracks when they have fewer than n
channels. -/
theorem choose_relaxed_first_channels (groups : List ChannelGroup) (n : Int) (hn : 2 < n) :
    ∃ r, ChooseExistingRecordingTracks n groups true = some r ∧
      r = (allChannels (scannedSequence groups true)).take n.toNat ∧
      (n.toNat ≤ channelSum (scannedSequence groups true) → r.length = n.toNat) ∧
      (channelSum (scannedSequence groups true) < n.toNat →
        r = allChannels (scannedSequence groups true)) := by
  have hmax : (max 0 n).toNat = n.toNat := by
    rw [max_eq_right (by omega)]
  have hbig : ¬ n.toNat ≤ 2 := by omega
  have hrun : ChooseExistingRecordingTracks n groups true
      = scanTracks false n.toNat (scannedSequence groups true) [] [] := by
    simp [ChooseExistingRecordingTracks, hmax, hbig]
  have hscan := scanTracks_relaxed n.toNat (scannedSequence groups true) [] []
    (by simp only [List.length_nil]; omega)
  rw [List.nil_append] at hscan
  refine ⟨_, hrun.trans hscan, rfl, ?_, ?_⟩
  · intro hle
    rw [List.length_take, length_allChannels]
    omega
  · intro hlt
    exact List.take_of_length_le (by rw [length_allChannels]; omega)

/-- Witness of C13 (amended): three channels and two selected stereo tracks. -/
theorem choose_relaxed_first_channels_witness :
    (2 : Int) < 3 ∧
    ∃ r, ChooseExistingRecordingTracks 3 [stereoSel, stereoSel2] true = some r ∧
      r = (allChannels (scannedSequence [stereoSel, stereoSel2] true)).take (3 : Int).toNat ∧
      ((3 : Int).toNat ≤ channelSum (scannedSequence [stereoSel, stereoSel2] true) →
        r.length = (3 : Int).toNat) ∧
      (channelSum (scannedSequence [stereoSel, stereoSel2] true) < (3 : Int).toNat →
        r = allChannels (scannedSequence [stereoSel, stereoSel2] true)) :=
  ⟨by decide, choose_relaxed_first_channels [stereoSel, stereoSel2] 3 (by decide)⟩

/-! ## Claims on cut preview -/

/-- The cut-preview stream start when a playable track is selected: the
preview set is made, and `StartStream` is called on it over the padded range,
with the gap options taken from the bounds `t0`, `t1` as they are. -/
theorem startPlayback_cut (q : Project) (options : AudioIOStartStreamOptions)
    (backwards useMidi : Bool) (t0 t1 : Time)
    (hsel : SelectedPlayable (allTracks q.tracks) ≠ []) :
    (startPlayback q options true backwards useMidi t0 t1).2.trace =
      q.trace ++
        [Event.Engine (EngineCall.StartStream
          (GetAllPlaybackTracks
            ((SelectedPlayable (allTracks q.tracks)).map
              (duplicateAndClear (min t0 t1) (max t0 t1))) false useMidi)
          (if backwards then min t0 t1 + q.prefs.cutPreviewAfterLen
            else min t0 t1 - q.prefs.cutPreviewBeforeLen)
          (if backwards then min t0 t1 - q.prefs.cutPreviewBeforeLen
            else min t0 t1 + q.prefs.cutPreviewAfterLen)
          { options with cutPreviewGapStart := t0, cutPreviewGapLen := t1 - t0 }),
         (if q.engine.startResult ≠ 0 then Event.SetAudioIOToken q.engine.startResult
          else Event.ErrorDialog true)] ∧
    (startPlayback q options true backwards useMidi t0 t1).2.cutPreviewTracks =
      some ((SelectedPlayable (allTracks q.tracks)).map
        (duplicateAndClear (min t0 t1) (max t0 t1))) := by
  have hne : (SelectedPlayable (allTracks q.tracks)).isEmpty = false := by
    cases h : SelectedPlayable (allTracks q.tracks) with
    | nil => exact absurd h hsel
    | cons a l => rfl
  have harith : max t0 t1 + q.prefs.cutPreviewAfterLen - (max t0 t1 - min t0 t1)
      = min t0 t1 + q.prefs.cutPreviewAfterLen := by ring
  by_cases htok : q.engine.startResult = 0 <;> cases backwards <;>
    simp [startPlayback, SetupCutPreviewTracks, ClearCutPreviewTracks, hne, StartStream,
      Project.log, SetAudioIOToken, htok, harith]

/-- C11: the code at the failing input. One selected wave track from 0 to
10, padding 2 before and 1 after, cut region (1, 3). Forward, `StartStream`
runs over (-1, 2) with gap start 1 and gap length 2. Backwards, the range is
exchanged to (2, -1), but the gap start is 3, the end of the cut, and the gap
length is -2. -/
theorem backwards_cut_preview_gap :
    (PlayPlayRegion cutProject { t0 := 1, t1 := 3 } {} PlayMode.cutPreviewPlay false
      false).2.trace =
      [Event.SetLooping false, Event.SetCutting true,
        Event.SetLastPlayMode PlayMode.cutPreviewPlay,
        Event.Engine (EngineCall.StartStream
          { playbackTracks :=
              [{ id := 1, selected := true, startTime := 0, endTime := 10,
                 ops := [TrackOp.Clear 1 3] }] }
          (-1) 2 { cutPreviewGapStart := 1, cutPreviewGapLen := 2 }),
        Event.SetAudioIOToken 1] ∧
    (PlayPlayRegion cutProject { t0 := 1, t1 := 3 } {} PlayMode.cutPreviewPlay true
      false).2.trace =
      [Event.SetLooping false, Event.SetCutting true,
        Event.SetLastPlayMode PlayMode.cutPreviewPlay,
        Event.Engine (EngineCall.StartStream
          { playbackTracks :=
              [{ id := 1, selected := true, startTime := 0, endTime := 10,
                 ops := [TrackOp.Clear 1 3] }] }
          2 (-1) { cutPreviewGapStart := 3, cutPreviewGapLen := -2 }),
        Event.SetAudioIOToken 1] := by
  decide!

/-! ## Claims on `Pause` -/

/-- `Stop` run to its end: the flags and the trace it leaves. -/
theorem stop_runs (p : Project) (stopStream : Bool) (hcan : CanStopAudioStream p = true) :
    (Stop p stopStream).paused = false ∧
    (Stop p stopStream).appending = p.appending ∧
    (stopStream = true →
      Event.Engine EngineCall.StopStream ∈ (Stop p stopStream).trace) := by
  cases stopStream <;> cases hbusy : p.engine.busy <;>
    simp [Stop, hcan, hbusy, SetStopping, SetLooping, SetCutting, SetPaused, EngineSetPaused,
      ClearCutPreviewTracks, StopStream, Project.log]

/-- `SetPaused` does not change what `CanStopAudioStream` reads. -/
theorem canStop_setPaused (p : Project) (b : Bool) :
    CanStopAudioStream (SetPaused p b) = CanStopAudioStream p := by
  simp [CanStopAudioStream, SetPaused]

/-- `Pause` when the project may stop the stream and the call does not turn
into a stop. -/
theorem pause_owner (p : Project) (hcan : CanStopAudioStream p = true)
    (hnostop : ¬ (p.paused = false ∧ p.engine.scrubbing = true ∧
      p.scrubberIsSpeedPlaying = false)) :
    Pause p =
      if p.engine.scrubbing then (SetPaused p (!p.paused)).log (Event.ScrubberPause (!p.paused))
      else EngineSetPaused (SetPaused p (!p.paused)) (!p.paused) := by
  have h : (!p.paused && (SetPaused p (!p.paused)).engine.scrubbing &&
      !(SetPaused p (!p.paused)).scrubberIsSpeedPlaying) = false := by
    cases hp : p.paused <;> cases hs : p.engine.scrubbing <;>
      cases hsp : p.scrubberIsSpeedPlaying <;> simp_all [SetPaused]
  simp only [Pause, OnPause, hcan, Bool.not_true, Bool.false_eq_true, if_false, h]
  simp [SetPaused]

/-- C12, counterexample: this project owns the stream and is not paused, the
engine is paused (another project toggled it). Two `Pause` calls restore the
flag of the project but leave the engine unpaused: its state is not
restored. -/
theorem two_pauses_do_not_restore_engine :
    CanStopAudioStream pausedByOtherProject = true ∧
    pausedByOtherProject.engine.scrubbing = false ∧
    pausedByOtherProject.paused = false ∧ pausedByOtherProject.engine.paused = true ∧
    (Pause pausedByOtherProject).paused = true ∧
    (Pause pausedByOtherProject).engine.paused = true ∧
    (Pause (Pause pausedByOtherProject)).paused = false ∧
    (Pause (Pause pausedByOtherProject)).engine.paused = false := by
  decide

/-- C12, amended: when `CanStopAudioStream` is false, `Pause` sets the paused
state of the engine to the negation of its value and leaves the Paused flag of
the project unchanged, and two calls restore both. When it is true and the
call does not turn into a stop, the Paused flag is negated and, the engine not
scrubbing, the engine is told `SetPaused` with the new value; two calls then
restore the flag and leave the paused state of the engine equal to the flag,
so they restore it when it was equal to the flag before. When the new value is
true and the engine is in a scrub session that is not speed-play, `Stop` is
performed: afterwards Paused is false and `StopStream` has been issued. -/
theorem pause_behaviour (p : Project) :
    (CanStopAudioStream p = false →
      (Pause p).engine.paused = !p.engine.paused ∧ (Pause p).paused = p.paused ∧
      (Pause p).trace = p.trace ++ [Event.Engine (EngineCall.SetPaused (!p.engine.paused))] ∧
      (Pause (Pause p)).engine.paused = p.engine.paused ∧
      (Pause (Pause p)).paused = p.paused) ∧
    (CanStopAudioStream p = true →
      ¬ (p.paused = false ∧ p.engine.scrubbing = true ∧ p.scrubberIsSpeedPlaying = false) →
      (Pause p).paused = !p.paused ∧
      (p.engine.scrubbing = false →
        (Pause p).engine.paused = !p.paused ∧
        (Pause p).trace = p.trace ++
          [Event.SetPaused (!p.paused), Event.Engine (EngineCall.SetPaused (!p.paused))] ∧
        (Pause (Pause p)).paused = p.paused ∧
        (Pause (Pause p)).engine.paused = p.paused ∧
        (p.engine.paused = p.paused → (Pause (Pause p)).engine.paused = p.engine.paused))) ∧
    (CanStopAudioStream p = true → p.paused = false → p.engine.scrubbing = true →
      p.scrubberIsSpeedPlaying = false →
      Pause p = Stop (SetPaused p true) true ∧
      (Pause p).paused = false ∧
      Event.Engine EngineCall.StopStream ∈ (Pause p).trace) := by
  refine ⟨?_, ?_, ?_⟩
  · intro hcan
    have h1 : Pause p = EngineSetPaused p (!p.engine.paused) := by simp [Pause, hcan]
    have hcan2 : CanStopAudioStream (EngineSetPaused p (!p.engine.paused)) = false := by
      simpa [CanStopAudioStream, EngineSetPaused] using hcan
    have h2 : Pause (Pause p) =
        EngineSetPaused (EngineSetPaused p (!p.engine.paused))
          (!(EngineSetPaused p (!p.engine.paused)).engine.paused) := by
      rw [h1]
      simp [Pause, hcan2]
    rw [h2, h1]
    simp [EngineSetPaused]
  · intro hcan hnostop
    have h1 := pause_owner p hcan hnostop
    refine ⟨?_, ?_⟩
    · rw [h1]
      cases p.engine.scrubbing <;> simp [SetPaused, EngineSetPaused, Project.log]
    · intro hs
      have h1' : Pause p = EngineSetPaused (SetPaused p (!p.paused)) (!p.paused) := by
        rw [h1, hs]
        simp
      have hcan2 : CanStopAudioStream (Pause p) = true := by
        rw [h1']
        simpa [CanStopAudioStream, EngineSetPaused, SetPaused] using hcan
      have hs2 : (Pause p).engine.scrubbing = false := by
        rw [h1']
        simpa [EngineSetPaused, SetPaused] using hs
      have hp2 : (Pause p).paused = !p.paused := by
        rw [h1']
        simp [EngineSetPaused, SetPaused]
      have h2 := pause_owner (Pause p) hcan2 (by simp [hs2])
      rw [hs2] at h2
      simp only [Bool.false_eq_true, if_false] at h2
      have hpp : (Pause (Pause p)).paused = p.paused := by
        rw [h2]
        simp [EngineSetPaused, SetPaused, hp2]
      have hpe : (Pause (Pause p)).engine.paused = p.paused := by
        rw [h2]
        simp [EngineSetPaused, SetPaused, hp2]
      refine ⟨?_, ?_, hpp, hpe, fun hsync => by rw [hpe, hsync]⟩
      · rw [h1']
        simp [EngineSetPaused, SetPaused]
      · rw [h1']
        simp [EngineSetPaused, SetPaused]
  · intro hcan hp hs hsp
    have h1 : Pause p = Stop (SetPaused p true) true := by
      simp [Pause, OnPause, hcan, hp, hs, hsp, SetPaused]
    have hcan2 : CanStopAudioStream (SetPaused p true) = true := by
      rw [canStop_setPaused]
      exact hcan
    obtain ⟨ha, _, hc⟩ := stop_runs (SetPaused p true) true hcan2
    rw [h1]
    exact ⟨rfl, ha, hc rfl⟩

/-- `Pause` at sample states: facing another project's stream only the engine
is toggled; in a scrub session that is not speed-play the call stops. -/
theorem pause_examples :
    CanStopAudioStream foreignStreamProject = false ∧
    (Pause foreignStreamProject).engine.paused = true ∧
    (Pause foreignStreamProject).paused = false ∧
    CanStopAudioStream scrubbingProject = true ∧
    (Pause scrubbingProject).paused = false ∧
    (Pause scrubbingProject).trace =
      [Event.SetPaused true, Event.StopScrubbing, Event.SetStopping true, Event.ProcessIdle,
        Event.Engine EngineCall.StopStream, Event.SetLooping false, Event.SetCutting false,
        Event.SetPaused false, Event.Engine (EngineCall.SetPaused false), Event.ClearMeters,
        Event.EnableDisableButtons, Event.SetStopping false] := by
  decide

/-! ## Claims on the session flags after recording -/

/-- The append loop of `DoRecord` leaves the session flags alone. -/
theorem appendLoop_flags (t0 : Time) (l : List Track) (st : Project × TransportTracks) :
    (l.foldl (appendStep t0) st).1.appending = st.1.appending := by
  induction l generalizing st with
  | nil => rfl
  | cons wt rest ih =>
    rw [List.foldl_cons, ih]
    rfl

/-- The loop that makes new tracks leaves Appending alone. -/
theorem newTrackLoop_flags (numTracks : Nat) (recordingChannels : Int) (l : List Nat)
    (st : NewTrackLoop) :
    (l.foldl (newTrackStep numTracks recordingChannels) st).project.appending
      = st.project.appending := by
  induction l generalizing st with
  | nil => rfl
  | cons c rest ih =>
    rw [List.foldl_cons, ih]
    unfold newTrackStep
    simp only [RegisterPendingNewTrack, Project.log]
    split <;> rfl

/-- The preparation of a recording leaves Appending alone. -/
theorem prepareRecording_flags (p1 : Project) (tracks : TransportTracks) (t0 t1 : Time) :
    (prepareRecording p1 tracks t0 t1).project.appending = p1.appending := by
  have key : ∀ (q : Project) (tt : TransportTracks),
      (recordToNewTracks q tt t0 t1).project.appending = q.appending := by
    intro q tt
    unfold recordToNewTracks
    have hloop := newTrackLoop_flags (LeadersWave q.tracks).length (max 1 q.prefs.recordChannels)
      (List.range (max 1 q.prefs.recordChannels).toNat)
      { project := q, transportTracks := tt, t0 := t0, t1 := t1 }
    simp only at hloop ⊢
    split
    · exact hloop
    · exact hloop
  have happ : (appendPending p1 tracks t0).1.appending = p1.appending := by
    unfold appendPending
    simp only
    split
    · exact appendLoop_flags _ _ _
    · rfl
  unfold prepareRecording
  simp only
  split
  · rw [key]
    exact happ
  · exact happ

/-- A `DoRecord` that returns true has set Appending to the negation of
`altAppearance`. -/
theorem doRecord_sets_appending (p : Project) (tracks : TransportTracks) (t0 t1 : Time)
    (altAppearance : Bool) (options : AudioIOStartStreamOptions)
    (hok : (DoRecord p tracks t0 t1 altAppearance options).1 = true) :
    (DoRecord p tracks t0 t1 altAppearance options).2.appending = !altAppearance := by
  unfold DoRecord at hok ⊢
  by_cases h1 : (!p.menuAllowed) = true
  · rw [if_pos h1] at hok
    cases hok
  · rw [if_neg h1] at hok ⊢
    by_cases h2 : p.engine.busy = true
    · rw [if_pos h2] at hok
      cases hok
    · rw [if_neg h2] at hok ⊢
      simp only at hok ⊢
      split
      · simp only [SetAudioIOToken, StartStream, Project.log]
        rw [prepareRecording_flags]
        rfl
      · rename_i hfail
        rw [if_neg hfail] at hok
        exact absurd hok hfail

/-- C14, counterexample: an append recording starts (the engine answers with
token 1) and sets Appending; `Stop`, with `CanStopAudioStream` true, clears
Looping, Cutting, Paused and Stopping and leaves Appending set. -/
theorem stop_leaves_appending_set :
    (DoRecord loopProject { captureTracks := [{ id := 1, startTime := 0, endTime := 10 }] }
      12 DBL_MAX false {}).1 = true ∧
    CanStopAudioStream
      (DoRecord loopProject { captureTracks := [{ id := 1, startTime := 0, endTime := 10 }] }
        12 DBL_MAX false {}).2 = true ∧
    (DoRecord loopProject { captureTracks := [{ id := 1, startTime := 0, endTime := 10 }] }
      12 DBL_MAX false {}).2.appending = true ∧
    (Stop (DoRecord loopProject
        { captureTracks := [{ id := 1, startTime := 0, endTime := 10 }] }
        12 DBL_MAX false {}).2 true).appending = true ∧
    (Stop (DoRecord loopProject
        { captureTracks := [{ id := 1, startTime := 0, endTime := 10 }] }
        12 DBL_MAX false {}).2 true).looping = false := by
  decide!

/-- C14, amended: after a `DoRecord` that returned true, followed by `Stop`
with `CanStopAudioStream` true, the flags Looping, Cutting, Paused and Stopping
are false; Appending is not written by `Stop` and keeps the value `DoRecord`
gave it, the negation of `altAppearance`. -/
theorem stop_after_record_flags (p : Project) (tracks : TransportTracks) (t0 t1 : Time)
    (altAppearance stopStream : Bool) (options : AudioIOStartStreamOptions)
    (hok : (DoRecord p tracks t0 t1 altAppearance options).1 = true)
    (hcan : CanStopAudioStream (DoRecord p tracks t0 t1 altAppearance options).2 = true) :
    (Stop (DoRecord p tracks t0 t1 altAppearance options).2 stopStream).looping = false ∧
    (Stop (DoRecord p tracks t0 t1 altAppearance options).2 stopStream).cutting = false ∧
    (Stop (DoRecord p tracks t0 t1 altAppearance options).2 stopStream).paused = false ∧
    (Stop (DoRecord p tracks t0 t1 altAppearance options).2 stopStream).stopping = false ∧
    (Stop (DoRecord p tracks t0 t1 altAppearance options).2 stopStream).appending
      = !altAppearance := by
  have hflags : ∀ q : Project, CanStopAudioStream q = true →
      (Stop q stopStream).looping = false ∧ (Stop q stopStream).cutting = false ∧
      (Stop q stopStream).paused = false ∧ (Stop q stopStream).stopping = false := by
    intro q hq
    cases stopStream <;> cases hbusy : q.engine.busy <;>
      simp [Stop, hq, hbusy, SetStopping, SetLooping, SetCutting, SetPaused, EngineSetPaused,
        ClearCutPreviewTracks, StopStream, Project.log]
  obtain ⟨h1, h2, h3, h4⟩ := hflags _ hcan
  refine ⟨h1, h2, h3, h4, ?_⟩
  rw [(stop_runs _ stopStream hcan).2.1]
  exact doRecord_sets_appending p tracks t0 t1 altAppearance options hok

/-- Witness of C14 (amended): the append recording of the counterexample. -/
theorem stop_after_record_flags_witness :
    ((DoRecord loopProject { captureTracks := [{ id := 1, startTime := 0, endTime := 10 }] }
        12 DBL_MAX false {}).1 = true ∧
      CanStopAudioStream
        (DoRecord loopProject { captureTracks := [{ id := 1, startTime := 0, endTime := 10 }] }
          12 DBL_MAX false {}).2 = true) ∧
    ((Stop (DoRecord loopProject
        { captureTracks := [{ id := 1, startTime := 0, endTime := 10 }] }
        12 DBL_MAX false {}).2 true).looping = false ∧
    (Stop (DoRecord loopProject
        { captureTracks := [{ id := 1, startTime := 0, endTime := 10 }] }
        12 DBL_MAX false {}).2 true).cutting = false ∧
    (Stop (DoRecord loopProject
        { captureTracks := [{ id := 1, startTime := 0, endTime := 10 }] }
        12 DBL_MAX false {}).2 true).paused = false ∧
    (Stop (DoRecord loopProject
        { captureTracks := [{ id := 1, startTime := 0, endTime := 10 }] }
        12 DBL_MAX false {}).2 true).stopping = false ∧
    (Stop (DoRecord loopProject
        { captureTracks := [{ id := 1, startTime := 0, endTime := 10 }] }
        12 DBL_MAX false {}).2 true).appending = !false) :=
  ⟨by decide!,
    stop_after_record_flags loopProject
      { captureTracks := [{ id := 1, startTime := 0, endTime := 10 }] } 12 DBL_MAX false true {}
      (by decide!) (by decide!)⟩

/-! ## Claims on `DoPlayStopSelect` -/

/-- `setTimes` on ordered arguments stores them as they are. -/
theorem setTimes_ordered (a b : Time) (h : a ≤ b) : setTimes a b = { t0 := a, t1 := b } := by
  simp [setTimes, not_lt.mpr h]

/-- Halving at most `fuel` times computes `Nat.log2` when the fuel is at
least the number. -/
theorem log2Fuel_eq (fuel n : Nat) (h : n ≤ fuel) : log2Fuel fuel n = Nat.log2 n := by
  induction fuel generalizing n with
  | zero =>
    have h0 : n = 0 := by omega
    subst h0
    rw [Nat.log2]
    simp [log2Fuel]
  | succ fuel ih =>
    rw [Nat.log2]
    simp only [log2Fuel, ge_iff_le]
    by_cases h2 : 2 ≤ n
    · rw [if_pos h2, if_pos h2, ih (n / 2) (by omega)]
    · rw [if_neg h2, if_neg h2]

/-- The structural binary logarithm is `Nat.log2`. -/
theorem natLog2_eq (n : Nat) : natLog2 n = Nat.log2 n :=
  log2Fuel_eq n n (le_refl n)

/-- Rounding to `double` commutes with the change of sign. -/
theorem roundToDouble_neg (x : ℚ) : roundToDouble (-x) = -roundToDouble x := by
  unfold roundToDouble
  by_cases h0 : x = 0
  · simp [h0]
  · have hn : -x ≠ 0 := neg_ne_zero.mpr h0
    simp only [hn, h0, if_false, abs_neg]
    rcases lt_or_gt_of_ne h0 with h | h
    · have h1 : ¬ (-x < 0) := by linarith
      simp [h, h1]
    · have h1 : -x < 0 := by linarith
      have h2 : ¬ x < 0 := not_lt.mpr (le_of_lt h)
      simp [h1, h2]

/-- When the time is exactly midway, the two `double` distances are equal. -/
theorem doubleSub_tie (t0 t1 time : Time) (h : time - t0 = t1 - time) :
    |doubleSub t0 time| = |doubleSub t1 time| := by
  have e : t0 - time = -(t1 - time) := by linarith
  unfold doubleSub
  rw [e, roundToDouble_neg, abs_neg]

/-- Shift-click reshaping of an ordered selection. -/
theorem reshape_shift_click (selection : SelectedRegion) (time : Time)
    (hord : selection.t0 ≤ selection.t1) :
    (time < selection.t0 →
      reshapeSelection selection time true true false = { t0 := time, t1 := selection.t1 }) ∧
    (selection.t1 < time →
      reshapeSelection selection time true true false = { t0 := selection.t0, t1 := time }) ∧
    (selection.t0 ≤ time → time ≤ selection.t1 →
      |doubleSub selection.t0 time| < |doubleSub selection.t1 time| →
      reshapeSelection selection time true true false = { t0 := time, t1 := selection.t1 }) ∧
    (selection.t0 ≤ time → time ≤ selection.t1 →
      ¬ |doubleSub selection.t0 time| < |doubleSub selection.t1 time| →
      reshapeSelection selection time true true false = { t0 := selection.t0, t1 := time }) := by
  refine ⟨?_, ?_, ?_, ?_⟩
  · intro h
    simp only [reshapeSelection, Bool.and_false, Bool.false_eq_true, if_false, Bool.and_self,
      if_true, h]
    exact setTimes_ordered _ _ (le_trans (le_of_lt h) hord)
  · intro h
    have h1 : ¬ time < selection.t0 := not_lt.mpr (le_trans hord (le_of_lt h))
    simp only [reshapeSelection, Bool.and_false, Bool.false_eq_true, if_false, Bool.and_self,
      if_true, h1, gt_iff_lt, h]
    exact setTimes_ordered _ _ (le_trans hord (le_of_lt h))
  · intro h1 h2 h3
    simp only [reshapeSelection, Bool.and_false, Bool.false_eq_true, if_false, Bool.and_self,
      if_true, not_lt.mpr h1, gt_iff_lt, not_lt.mpr h2]
    rw [if_pos h3]
    exact setTimes_ordered _ _ h2
  · intro h1 h2 h3
    simp only [reshapeSelection, Bool.and_false, Bool.false_eq_true, if_false, Bool.and_self,
      if_true, not_lt.mpr h1, gt_iff_lt, not_lt.mpr h2]
    rw [if_neg h3]
    exact setTimes_ordered _ _ h1

/-- C15, counterexample: the selection is (0.1, 0.9) in `double`s, the
stream is active at time 0.5, click and shift. The start boundary is strictly
nearer to the time, yet the two differences round to the same `double`, the
test `fabs(t0 - time) < fabs(t1 - time)` fails and the end boundary is moved:
the new selection is (0.1, 0.5). -/
theorem shift_click_near_tie_moves_end :
    nearTieProject.selectedRegion = { t0 := doubleTenth, t1 := doubleNineTenths } ∧
    nearTieProject.engine.streamTime = 1 / 2 ∧
    roundToDouble doubleTenth = doubleTenth ∧
    roundToDouble doubleNineTenths = doubleNineTenths ∧
    (DoPlayStopSelect nearTieProject true true).1 = true ∧
    nearTieProject.scrubberWasSpeedPlaying = false ∧
    |doubleTenth - 1 / 2| < |doubleNineTenths - 1 / 2| ∧
    |doubleSub doubleTenth (1 / 2)| = |doubleSub doubleNineTenths (1 / 2)| ∧
    (DoPlayStopSelect nearTieProject true true).2.selectedRegion
      = { t0 := doubleTenth, t1 := 1 / 2 } ∧
    (DoPlayStopSelect nearTieProject true true).2.selectedRegion
      ≠ { t0 := 1 / 2, t1 := doubleNineTenths } := by
  decide!

/-- C15, amended: `DoPlayStopSelect(click, shift)` returns true exactly when
the scrubber has a mark or the stream is active for the stored token, and
otherwise returns false and changes nothing. When it returns true and speed
play did not precede: with click and shift, for an ordered selection, the new
selection is ordered, has the stream time as one boundary and keeps the other
one - it grows to the time when the time lies outside the selection, and
otherwise the start boundary moves when its distance to the time, computed in
`double`s, is strictly smaller than that of the end boundary, and the end
boundary moves when it is not, in particular when the time is exactly midway;
with click and no shift the selection is the point max(time, 0). With click
after speed play the selection is kept. -/
theorem doPlayStopSelect_reshapes (p : Project) (click shift : Bool) :
    (DoPlayStopSelect p click shift).1
      = (p.scrubberHasMark || IsStreamActiveFor p.engine p.audioIOToken) ∧
    ((DoPlayStopSelect p click shift).1 = false → (DoPlayStopSelect p click shift).2 = p) ∧
    ((DoPlayStopSelect p click shift).1 = true →
      (DoPlayStopSelect p click shift).2.selectedRegion
        = reshapeSelection p.selectedRegion p.engine.streamTime click shift
            p.scrubberWasSpeedPlaying ∧
      (click = true → p.scrubberWasSpeedPlaying = true →
        (DoPlayStopSelect p click shift).2.selectedRegion = p.selectedRegion) ∧
      (click = true → shift = true → p.scrubberWasSpeedPlaying = false →
        p.selectedRegion.t0 ≤ p.selectedRegion.t1 →
        (DoPlayStopSelect p click shift).2.selectedRegion.t0
          ≤ (DoPlayStopSelect p click shift).2.selectedRegion.t1 ∧
        ((DoPlayStopSelect p click shift).2.selectedRegion
            = { t0 := p.engine.streamTime, t1 := p.selectedRegion.t1 } ∨
          (DoPlayStopSelect p click shift).2.selectedRegion
            = { t0 := p.selectedRegion.t0, t1 := p.engine.streamTime }) ∧
        (p.engine.streamTime < p.selectedRegion.t0 →
          (DoPlayStopSelect p click shift).2.selectedRegion
            = { t0 := p.engine.streamTime, t1 := p.selectedRegion.t1 }) ∧
        (p.selectedRegion.t1 < p.engine.streamTime →
          (DoPlayStopSelect p click shift).2.selectedRegion
            = { t0 := p.selectedRegion.t0, t1 := p.engine.streamTime }) ∧
        (p.selectedRegion.t0 ≤ p.engine.streamTime →
          p.engine.streamTime ≤ p.selectedRegion.t1 →
          (DoPlayStopSelect p click shift).2.selectedRegion
            = if |doubleSub p.selectedRegion.t0 p.engine.streamTime|
                  < |doubleSub p.selectedRegion.t1 p.engine.streamTime|
              then { t0 := p.engine.streamTime, t1 := p.selectedRegion.t1 }
              else { t0 := p.selectedRegion.t0, t1 := p.engine.streamTime }) ∧
        (p.selectedRegion.t0 ≤ p.engine.streamTime →
          p.engine.streamTime ≤ p.selectedRegion.t1 →
          p.engine.streamTime - p.selectedRegion.t0
            = p.selectedRegion.t1 - p.engine.streamTime →
          (DoPlayStopSelect p click shift).2.selectedRegion
            = { t0 := p.selectedRegion.t0, t1 := p.engine.streamTime })) ∧
      (click = true → shift = false → p.scrubberWasSpeedPlaying = false →
        (DoPlayStopSelect p click shift).2.selectedRegion
          = { t0 := max p.engine.streamTime 0, t1 := max p.engine.streamTime 0 })) := by
  by_cases hact : (p.scrubberHasMark || IsStreamActiveFor p.engine p.audioIOToken) = true
  swap
  · have hrun : DoPlayStopSelect p click shift = (false, p) := by
      simp only [DoPlayStopSelect, hact, if_false]
      rfl
    rw [hrun]
    refine ⟨by simpa using hact, fun _ => rfl, fun h => by cases h⟩
  have hret : (DoPlayStopSelect p click shift).1 = true := by
    simp only [DoPlayStopSelect, hact, if_true]
  have hsel : (DoPlayStopSelect p click shift).2.selectedRegion
      = reshapeSelection p.selectedRegion p.engine.streamTime click shift
          p.scrubberWasSpeedPlaying := by
    simp only [DoPlayStopSelect, hact, if_true, Project.log]
  refine ⟨hret.trans hact.symm, fun h => ?_, fun _ => ⟨hsel, ?_, ?_, ?_⟩⟩
  · rw [hret] at h
    cases h
  · intro hc hw
    rw [hsel]
    simp [reshapeSelection, hc, hw]
  · intro hc hs hw hord
    subst hc hs
    rw [hw] at hsel
    simp only [hsel]
    obtain ⟨h1, h2, h3, h4⟩ := reshape_shift_click p.selectedRegion p.engine.streamTime hord
    by_cases hlt : p.engine.streamTime < p.selectedRegion.t0
    · have e := h1 hlt
      rw [e]
      refine ⟨le_trans (le_of_lt hlt) hord, Or.inl rfl, fun _ => rfl, ?_, ?_, ?_⟩
      · intro hgt
        exact absurd (lt_of_lt_of_le hlt hord) (not_lt.mpr (le_of_lt hgt))
      · intro hle
        exact absurd hlt (not_lt.mpr hle)
      · intro hle
        exact absurd hlt (not_lt.mpr hle)
    · by_cases hgt : p.selectedRegion.t1 < p.engine.streamTime
      · have e := h2 hgt
        rw [e]
        refine ⟨le_trans hord (le_of_lt hgt), Or.inr rfl, fun h => absurd h hlt, fun _ => rfl,
          ?_, ?_⟩
        · intro _ hle
          exact absurd hgt (not_lt.mpr hle)
        · intro _ hle
          exact absurd hgt (not_lt.mpr hle)
      · have hle0 := not_lt.mp hlt
        have hle1 := not_lt.mp hgt
        by_cases hnear : |doubleSub p.selectedRegion.t0 p.engine.streamTime|
            < |doubleSub p.selectedRegion.t1 p.engine.streamTime|
        · have e := h3 hle0 hle1 hnear
          rw [e]
          refine ⟨hle1, Or.inl rfl, fun _ => rfl, fun h => absurd h hgt,
            fun _ _ => by rw [if_pos hnear], ?_⟩
          intro _ _ htie
          exact absurd hnear (by rw [doubleSub_tie _ _ _ htie]; exact lt_irrefl _)
        · have e := h4 hle0 hle1 hnear
          rw [e]
          exact ⟨hle0, Or.inr rfl, fun h => absurd h hlt, fun _ => rfl,
            fun _ _ => by rw [if_neg hnear], fun _ _ _ => rfl⟩
  · intro hc hs hw
    subst hc hs
    rw [hsel, hw]
    simp [reshapeSelection, setTimes]

/-- `DoPlayStopSelect` at sample states with the selection (2, 8): shift-click
at the stream times 1, 9, 4, 6 and 5 (the tie), and a click at -3. -/
theorem doPlayStopSelect_examples :
    (DoPlayStopSelect (streamingAt 1) true true).2.selectedRegion = { t0 := 1, t1 := 8 } ∧
    (DoPlayStopSelect (streamingAt 9) true true).2.selectedRegion = { t0 := 2, t1 := 9 } ∧
    (DoPlayStopSelect (streamingAt 4) true true).2.selectedRegion = { t0 := 4, t1 := 8 } ∧
    (DoPlayStopSelect (streamingAt 6) true true).2.selectedRegion = { t0 := 2, t1 := 6 } ∧
    (DoPlayStopSelect (streamingAt 5) true true).2.selectedRegion = { t0 := 2, t1 := 5 } ∧
    (DoPlayStopSelect (streamingAt (-3)) true false).2.selectedRegion = { t0 := 0, t1 := 0 } ∧
    (DoPlayStopSelect (streamingAt 5) true true).1 = true ∧
    DoPlayStopSelect loopProject true true = (false, loopProject) := by
  decide!

/-! ## Claims on the names of new recording tracks -/

/-- The suffix after the replacement holds no colon. -/
theorem replaceColons_no_colon (s : String) : ':' ∉ (replaceColons s).data := by
  simp only [replaceColons, List.mem_map, not_exists, not_and]
  intro ch _ h
  by_cases hc : ch = ':'
  · rw [if_pos hc] at h
    exact absurd h (by decide)
  · rw [if_neg hc] at h
    exact hc h

/-- The name of a new track, written with `baseTrackName`. -/
theorem newTrackName_shape (prefs : Prefs) (numTracks c : Nat) (isoDate isoTime : String) :
    ∃ nameSuffix : String, ':' ∉ nameSuffix.data ∧
      newTrackName prefs numTracks c isoDate isoTime =
        if (baseTrackName prefs).isEmpty then nameSuffix
        else if nameSuffix.isEmpty then baseTrackName prefs
        else baseTrackName prefs ++ "_" ++ nameSuffix :=
  ⟨_, replaceColons_no_colon _, rfl⟩

/-- C16, counterexample: the default track name is "Take: 1" and the time
stamp is enabled. The stamp 12:00:00 is written 12-00-00, the base name is
used as it is, and the names of the new tracks hold a colon. -/
theorem new_track_name_keeps_colon_of_base :
    baseTrackName colonProject.prefs = "Take: 1" ∧
    newTrackName colonProject.prefs 1 0 colonProject.isoDate colonProject.isoTime
      = "Take: 1_12-00-00" ∧
    ':' ∈ (newTrackName colonProject.prefs 1 0 colonProject.isoDate colonProject.isoTime).data ∧
    (DoRecord colonProject {} 0 DBL_MAX true {}).2.pendingNew.map
        (fun g => (Channels g).map (fun t => t.name))
      = [["Take: 1_12-00-00", "Take: 1_12-00-00"]] := by
  decide!

/-- C16, amended: the name of a new track is the base name, the suffix, or
the base name, "_" and the suffix, where the suffix is built from the enabled
ordinal, date stamp and time stamp and has every ":" replaced by "-". The base
name is used unchanged: the name holds a ":" exactly when the base name holds
one. Each track made by the loop of `DoRecord` carries this name. -/
theorem new_track_name_colons (prefs : Prefs) (numTracks c : Nat) (isoDate isoTime : String) :
    (':' ∈ (newTrackName prefs numTracks c isoDate isoTime).data
      ↔ ':' ∈ (baseTrackName prefs).data) ∧
    (∃ nameSuffix : String, ':' ∉ nameSuffix.data ∧
      newTrackName prefs numTracks c isoDate isoTime =
        if (baseTrackName prefs).isEmpty then nameSuffix
        else if nameSuffix.isEmpty then baseTrackName prefs
        else baseTrackName prefs ++ "_" ++ nameSuffix) ∧
    (∀ (recordingChannels : Int) (st : NewTrackLoop),
      ∃ newTrack : Track,
        (newTrackStep numTracks recordingChannels st c).transportTracks.captureTracks
          = st.transportTracks.captureTracks ++ [newTrack] ∧
        newTrack.name
          = newTrackName st.project.prefs numTracks c st.project.isoDate st.project.isoTime) := by
  refine ⟨?_, newTrackName_shape prefs numTracks c isoDate isoTime, ?_⟩
  · obtain ⟨suffix, hsuf, hname⟩ := newTrackName_shape prefs numTracks c isoDate isoTime
    rw [hname]
    by_cases hb : (baseTrackName prefs).isEmpty = true
    · rw [if_pos hb]
      have hbase : baseTrackName prefs = "" := (String.isEmpty_iff _).mp hb
      rw [hbase]
      constructor
      · intro h
        exact absurd h hsuf
      · intro h
        exact absurd h (by decide)
    · rw [if_neg hb]
      by_cases hs : suffix.isEmpty = true
      · rw [if_pos hs]
      · rw [if_neg hs]
        simp only [String.data_append, List.mem_append]
        constructor
        · rintro ((h | h) | h)
          · exact h
          · exact absurd h (by decide)
          · exact absurd h hsuf
        · intro h
          exact Or.inl (Or.inl h)
  · intro recordingChannels st
    exact ⟨_, rfl, rfl⟩

/-! ## Claims on `OnRecord` -/

/-- `ChooseExistingRecordingTracks` returns for every input. -/
theorem chooseExistingRecordingTracks_total (recordChannels : Int)
    (groups : List ChannelGroup) (selectedOnly : Bool) :
    ∃ r, ChooseExistingRecordingTracks recordChannels groups selectedOnly = some r := by
  unfold ChooseExistingRecordingTracks
  simp only
  split
  · exact ⟨[], rfl⟩
  · exact scanTracks_total _ _ _ [] [] ⟨rfl, by simp⟩

/-- The request of `OnRecord` in the append path, from the two answers of
`ChooseExistingRecordingTracks`. -/
theorem onRecordRequest_append (p : Project) (altAppearance : Bool)
    (happ : altAppearance = p.prefs.preferNewTrackRecord) (r1 r2 : List Track)
    (h1 : ChooseExistingRecordingTracks p.prefs.recordChannels p.tracks true = some r1)
    (h2 : ChooseExistingRecordingTracks p.prefs.recordChannels p.tracks false = some r2) :
    ∃ request, OnRecordRequest p altAppearance = some request ∧
      request.transportTracks.captureTracks = (if r1.isEmpty then r2 else r1) ∧
      request.t0 = max p.selectedRegion.t0
        (if r1.isEmpty then maxEndTime (AnyWave (allTracks p.tracks))
         else maxEndTime ((AnyWave (allTracks p.tracks)).filter (fun t => t.selected))) ∧
      request.t1 =
        (if (if p.selectedRegion.t1 = p.selectedRegion.t0 then DBL_MAX
              else p.selectedRegion.t1) ≤ p.selectedRegion.t0 ∧
            p.selectedRegion.t1 > p.selectedRegion.t0
         then p.selectedRegion.t1 else DBL_MAX) := by
  unfold OnRecordRequest
  simp only [happ, beq_self_eq_true, if_true, h1, h2]
  cases hr : r1.isEmpty
  · simp only [Bool.not_false, if_true, Bool.false_eq_true, if_false]
    exact ⟨_, rfl, rfl, rfl, rfl⟩
  · simp only [Bool.not_true, Bool.false_eq_true, if_false, if_true]
    exact ⟨_, rfl, rfl, rfl, rfl⟩

/-- The request of `OnRecord` outside the append path. -/
theorem onRecordRequest_new (p : Project) (altAppearance : Bool)
    (hnew : altAppearance ≠ p.prefs.preferNewTrackRecord) :
    ∃ request, OnRecordRequest p altAppearance = some request ∧
      request.transportTracks.captureTracks = [] ∧
      request.t0 = p.selectedRegion.t0 ∧
      request.t1 = (if p.selectedRegion.t1 = p.selectedRegion.t0 then DBL_MAX
        else p.selectedRegion.t1) := by
  unfold OnRecordRequest
  have hb : (altAppearance == p.prefs.preferNewTrackRecord) = false := by
    simpa using hnew
  simp only [hb, Bool.false_eq_true, if_false]
  exact ⟨_, rfl, rfl, rfl, rfl⟩

/-- The append loop of `DoRecord` stages the pending copy of every capture
track, in order. -/
theorem appendLoop_pending (t0 : Time) (l : List Track) (st : Project × TransportTracks) :
    (l.foldl (appendStep t0) st).1.pendingUpdates
      = st.1.pendingUpdates ++ l.map (pendingCopy t0) := by
  induction l generalizing st with
  | nil => simp
  | cons wt rest ih =>
    rw [List.foldl_cons, ih]
    simp [appendStep, RegisterPendingChangedTrack]

/-- `OnRecord` at `appendProject`: the two channels of the stereo track are
chosen, the recording starts at 10, the greatest end time of the selected wave
tracks, and has no end. -/
theorem onRecord_example :
    (OnRecordRequest appendProject false).map (fun r => r.transportTracks.captureTracks)
      = some [{ id := 1, selected := true, endTime := 10 },
              { id := 2, selected := true, endTime := 10 }] ∧
    (OnRecordRequest appendProject false).map (fun r => r.t0) = some 10 ∧
    (OnRecordRequest appendProject false).map (fun r => r.t1) = some DBL_MAX ∧
    (OnRecordRequest appendProject true).map (fun r => (r.t0, r.t1)) = some (3, 6) := by
  decide!

/-- C18: `OnRecord` always reaches `DoRecord`. In the append path the end
time it passes is `DBL_MAX`: the test of the branch that records within the
selection never holds. Outside the append path no capture track is passed, the
start time is the start of the selection, and the end time is the end of the
selection when the selection is not a point and `DBL_MAX` when it is. -/
theorem record_end_time (p : Project) (altAppearance : Bool) :
    ¬ ((if p.selectedRegion.t1 = p.selectedRegion.t0 then DBL_MAX else p.selectedRegion.t1)
          ≤ p.selectedRegion.t0 ∧
        p.selectedRegion.t1 > p.selectedRegion.t0) ∧
    ∃ request, OnRecordRequest p altAppearance = some request ∧
      (altAppearance = p.prefs.preferNewTrackRecord → request.t1 = DBL_MAX) ∧
      (altAppearance ≠ p.prefs.preferNewTrackRecord →
        request.transportTracks.captureTracks = [] ∧
        request.t0 = p.selectedRegion.t0 ∧
        (p.selectedRegion.t1 ≠ p.selectedRegion.t0 → request.t1 = p.selectedRegion.t1) ∧
        (p.selectedRegion.t1 = p.selectedRegion.t0 → request.t1 = DBL_MAX)) := by
  have hnever : ¬ ((if p.selectedRegion.t1 = p.selectedRegion.t0 then DBL_MAX
        else p.selectedRegion.t1) ≤ p.selectedRegion.t0 ∧
      p.selectedRegion.t1 > p.selectedRegion.t0) := by
    rintro ⟨hle, hgt⟩
    rw [if_neg (ne_of_gt hgt)] at hle
    exact absurd hgt (not_lt.mpr hle)
  refine ⟨hnever, ?_⟩
  by_cases happ : altAppearance = p.prefs.preferNewTrackRecord
  · obtain ⟨r1, h1⟩ := chooseExistingRecordingTracks_total p.prefs.recordChannels p.tracks true
    obtain ⟨r2, h2⟩ := chooseExistingRecordingTracks_total p.prefs.recordChannels p.tracks false
    obtain ⟨request, hreq, _, _, ht1⟩ := onRecordRequest_append p altAppearance happ r1 r2 h1 h2
    refine ⟨request, hreq, fun _ => ?_, fun h => absurd happ h⟩
    rw [ht1, if_neg hnever]
  · obtain ⟨request, hreq, hcap, ht0, ht1⟩ := onRecordRequest_new p altAppearance happ
    refine ⟨request, hreq, fun h => absurd h happ, fun _ => ⟨hcap, ht0, ?_, ?_⟩⟩
    · intro hne
      rw [ht1, if_neg hne]
    · intro heq
      rw [ht1, if_pos heq]

end Audacity
